import Mathlib

/-!
Verification development for the lukefinance-dashboard repository.

The development shallowly embeds the core logic of the dashboard
(`public/app.js`-style single file plus `server.js`): year-month string
handling, the stage resolver `findStageForYearMonth`, the monthly rollover
engine `applyMonthlyRolloverIfNeeded`, the goal projectors
`projectGoalDate` / `projectBufferDate`, the plan validator `validatePlan`,
the state seeding/restore logic, and the `PUT /api/state` handler.

Modelling conventions:
* JavaScript dynamic values are embedded with `Option`: a field of type
  `Option α` is `some x` when the JS value is present and of the expected
  type, `none` when it is absent, `null`, `undefined` or of another type.
  A stage that is itself `null` behaves exactly like a stage with all
  fields missing in every operation modelled here, so stage lists are
  `List (Stage α)`.
* JS string comparison (`<=`, and `localeCompare` on the fixed-format
  `YYYY-MM` strings used by the code, where locale collation agrees with
  code-unit order) is embedded by structural lexicographic comparison of
  the underlying character lists; the core `String` order is avoided only
  because its well-founded definition does not reduce in the kernel.
* `Array.prototype.sort` with a user comparator is embedded as a stable
  insertion sort whose comparator is fallible (`Except Unit Ordering`):
  `localeCompare` on a missing receiver is a TypeError, modelled as
  `Except.error ()`.  The insertion direction matches the observable
  pattern of the engine's binary insertion sort: each later element is
  passed as the first comparator argument while being inserted into the
  sorted prefix.
* While-loops over calendar months are embedded with explicit fuel; the
  instantiated fuel provably dominates the number of iterations the JS
  loop performs for the well-formed year-month strings the guards
  establish.
* Balances are generic over a `LinearOrderedCommRing` (the code only adds,
  multiplies and compares balances) so the same definitions run with
  kernel-reducible arithmetic over `ℤ` for concrete instances, are stated
  over `ℚ` in the universally quantified claims, and are reasoned about
  over `ℝ` where the source uses the irrational monthly growth rate
  `1.08^(1/12) - 1`.
-/

namespace LukeFinance

/-! ### JS string primitives -/

/-- Code-unit comparison of characters, as JS relational operators use. -/
def charLtB (a b : Char) : Bool := a.toNat < b.toNat

/-- Lexicographic strict order on character lists: the JS `<` on strings. -/
def lexLtB : List Char → List Char → Bool
  | [], [] => false
  | [], _ :: _ => true
  | _ :: _, [] => false
  | a :: as, b :: bs => charLtB a b || (a == b && lexLtB as bs)

/-- JS `a < b` on strings. -/
def jsStrLt (a b : String) : Bool := lexLtB a.data b.data

/-- JS `a <= b` on strings (total order: `¬ (b < a)`). -/
def jsStrLe (a b : String) : Bool := !(lexLtB b.data a.data)

/-- Three-way comparison of strings by code units; `localeCompare` agrees
with this on the digit/hyphen strings the dashboard compares. -/
def compareStr (a b : String) : Ordering :=
  if lexLtB a.data b.data then .lt
  else if lexLtB b.data a.data then .gt
  else .eq

/-- Numeric value of a digit character. -/
def digitVal (c : Char) : Nat := c.toNat - 48

/-! ### Date helpers (`getCurrentYearMonth`, `parseYearMonth`, `addMonths`) -/

/-- The year/month components of a JS `Date`; `month0` is 0-based as in
`Date.prototype.getMonth`.  Only these components are read by the code
under verification (all constructed dates are at day 1). -/
structure JsDate where
  year : Int
  month0 : Int
deriving DecidableEq, Repr

/-- JS `Date` month normalization: `new Date(y, m0, 1)` carries month
overflow into the year with floor semantics. -/
def mkJsDate (y m0 : Int) : JsDate := ⟨y + m0.fdiv 12, m0.fmod 12⟩

/-- `addMonths(date, months)` via `setMonth`, which renormalizes. -/
def addMonths (d : JsDate) (k : Int) : JsDate := mkJsDate d.year (d.month0 + k)

/-- Linear month index of a date, used for fuel bounds and specifications. -/
def monthIdx (d : JsDate) : Int := 12 * d.year + d.month0

/-- `String(n).padStart(2, "0")`. -/
def padStart2 (s : String) : String :=
  if s.length == 0 then "00"
  else if s.length == 1 then String.mk ('0' :: s.data)
  else s

/-- `getCurrentYearMonth(d)`: `` `${d.getFullYear()}-${pad(d.getMonth()+1)}` ``. -/
def getCurrentYearMonth (d : JsDate) : String :=
  toString d.year ++ "-" ++ padStart2 (toString (d.month0 + 1))

/-- `String.prototype.split("-")` on the underlying characters. -/
def splitDashAux : List Char → List Char → List (List Char)
  | [], acc => [acc.reverse]
  | c :: cs, acc =>
      if c == '-' then acc.reverse :: splitDashAux cs []
      else splitDashAux cs (c :: acc)

/-- `Number(s)` restricted to nonempty all-digit strings, as produced for
the components of a valid `YYYY-MM` string; other inputs yield `none`
(NaN). -/
def parseDigits : List Char → Nat → Option Nat
  | [], acc => some acc
  | c :: cs, acc => if c.isDigit then parseDigits cs (10 * acc + digitVal c) else none

/-- `parseYearMonth(ym)`: split on `-`, convert with `Number`, build
`new Date(y, m - 1, 1)`.  The `⟨0, 0⟩` fallback models the Invalid Date a
malformed input would produce; every call site guards with
`isValidYearMonth` or supplies a generated year-month. -/
def parseYearMonth (s : String) : JsDate :=
  match splitDashAux s.data [] with
  | p1 :: p2 :: _ =>
      match parseDigits p1 0, parseDigits p2 0 with
      | some y, some m => mkJsDate (Int.ofNat y) (Int.ofNat m - 1)
      | _, _ => ⟨0, 0⟩
  | _ => ⟨0, 0⟩

/-! ### Data model -/

/-- A plan stage.  Numeric fields are `some` exactly when the JS value is
a number (`safeNumber` returns it), `none` otherwise; `name`/`from`/`to`
are `some` exactly when the JS value is a string. -/
structure Stage (α : Type) where
  name : Option String := none
  «from» : Option String := none
  «to» : Option String := none
  income : Option α := none
  net_income : Option α := none
  fixed_costs : Option α := none
  household : Option α := none
  saving_longterm : Option α := none
  saving_buffer : Option α := none
deriving DecidableEq

/-- The goal object.  Outer `Option` is key presence (`hasOwnProperty`),
inner `Option` is whether the present value is numeric. -/
structure Goal (α : Type) where
  target_longterm : Option (Option α) := none
  target_buffer : Option (Option α) := none
  current_longterm : Option (Option α) := none
  current_buffer : Option (Option α) := none
  target_year : Option (Option α) := none
deriving DecidableEq

/-- A plan: `stages` is `none` when missing or not an array. -/
structure Plan (α : Type) where
  stages : Option (List (Stage α)) := none
  goal : Option (Goal α) := none

/-- The mutable `goalState` object: balances are always JS numbers once
initialized, `lastRolloverYm` is `null` before first initialization. -/
structure GoalState (α : Type) where
  currentLongterm : α
  currentBuffer : α
  lastRolloverYm : Option String
deriving DecidableEq

/-- `safeNumber`: the identity on our `Option`-encoded numbers (`none`
stands for every non-number JS value). -/
def safeNumber (v : Option α) : Option α := v

/-- Collapse a `hasOwnProperty`-plus-numeric field to its numeric value:
`safeNumber(goal?.field)`. -/
def numField (x : Option (Option α)) : Option α := x.bind id

/-- JS truthiness of a string-or-absent value (`undefined`, `null` and
`""` are falsy). -/
def isTruthyStr : Option String → Bool
  | none => false
  | some s => !(s == "")

/-- `isValidYearMonth`: a string matching `^(\d{4})-(\d{2})$` with month
in `[1, 12]`; every non-string value fails the `typeof` check. -/
def isValidYearMonth : Option String → Bool
  | none => false
  | some s =>
      match s.data with
      | [y1, y2, y3, y4, h, m1, m2] =>
          y1.isDigit && y2.isDigit && y3.isDigit && y4.isDigit && h == '-' &&
          m1.isDigit && m2.isDigit &&
          (let m := 10 * digitVal m1 + digitVal m2
           decide (1 ≤ m) && decide (m ≤ 12))
      | _ => false

/-! ### JS array sort with a fallible comparator -/

/-- `a.localeCompare(b)` where either side may be a missing value: a
missing receiver is a TypeError, a missing argument is stringified to
`"undefined"`. -/
def localeCompareJs : Option String → Option String → Except Unit Ordering
  | none, _ => .error ()
  | some a, some b => .ok (compareStr a b)
  | some a, none => .ok (compareStr a "undefined")

/-- Insert an element into a sorted prefix, calling the comparator with
the inserted element first, and keeping it after equal elements
(stability). -/
def insertSortedJs (cmp : α → α → Except Unit Ordering) (x : α) :
    List α → Except Unit (List α)
  | [] => .ok [x]
  | y :: ys => do
      match (← cmp x y) with
      | .lt => .ok (x :: y :: ys)
      | _ => do
          let r ← insertSortedJs cmp x ys
          .ok (y :: r)

/-- Left-to-right insertion pass of the sort. -/
def sortJsGo (cmp : α → α → Except Unit Ordering) :
    List α → List α → Except Unit (List α)
  | sorted, [] => .ok sorted
  | sorted, x :: xs => do
      let s ← insertSortedJs cmp x sorted
      sortJsGo cmp s xs

/-- `Array.prototype.sort(cmp)` as a stable fallible insertion sort. -/
def sortJs (cmp : α → α → Except Unit Ordering) (l : List α) :
    Except Unit (List α) :=
  sortJsGo cmp [] l

/-! ### Stage resolution (`findStageForYearMonth`) -/

/-- Tier-1 filter: `s?.from` truthy, `s.from <= ym`, and
`s.to ? ym <= s.to : true`. -/
def candPred (ym : String) (s : Stage α) : Bool :=
  match s.«from» with
  | none => false
  | some f =>
      if f == "" then false
      else
        jsStrLe f ym &&
        (match s.«to» with
         | some t => if t == "" then true else jsStrLe ym t
         | none => true)

/-- Tier-2 filter: `s?.from` truthy and `s.from <= ym`. -/
def priorPred (ym : String) (s : Stage α) : Bool :=
  match s.«from» with
  | none => false
  | some f => if f == "" then false else jsStrLe f ym

/-- Comparator `(a, b) => b.from.localeCompare(a.from)` (descending). -/
def cmpFromDesc (a b : Stage α) : Except Unit Ordering :=
  localeCompareJs b.«from» a.«from»

/-- Comparator `(a, b) => a.from.localeCompare(b.from)` (ascending). -/
def cmpFromAsc (a b : Stage α) : Except Unit Ordering :=
  localeCompareJs a.«from» b.«from»

/-- `findStageForYearMonth(stages, ym)`: three-tier lookup.  The result is
`Except` because the tier-3 sort can invoke `localeCompare` on a missing
`from`. -/
def findStageForYearMonth (stages : List (Stage α)) (ym : String) :
    Except Unit (Option (Stage α)) :=
  if stages.isEmpty then .ok none
  else
    let candidates := stages.filter (candPred ym)
    if candidates.isEmpty then
      let prior := stages.filter (priorPred ym)
      if prior.isEmpty then do
        let earliest ← sortJs cmpFromAsc stages
        .ok earliest.head?
      else do
        let sorted ← sortJs cmpFromDesc prior
        .ok sorted.head?
    else do
      let sorted ← sortJs cmpFromDesc candidates
      .ok sorted.head?

/-! ### Rollover engine (`applyMonthlyRolloverIfNeeded`) -/

/-- One catch-up iteration of the rollover `while` loop, with explicit
fuel.  The guard, the per-month stage resolution, the two conditional
additions, the `changed` flag updates and the watermark advance follow
the source loop body; exhausted fuel returns the state reached so far,
and the instantiated fuel below provably dominates the iteration count
for the well-formed year-months the outer guards establish. -/
def rolloverLoop [LinearOrderedCommRing α] (stages : List (Stage α))
    (currentYm : String) :
    Nat → JsDate → GoalState α → Bool → Except Unit (GoalState α × Bool)
  | 0, _, st, changed => .ok (st, changed)
  | fuel + 1, cursor, st, changed =>
      if jsStrLe (getCurrentYearMonth cursor) currentYm then do
        let ym := getCurrentYearMonth cursor
        let stage ← findStageForYearMonth stages ym
        let addLong := safeNumber (stage.bind Stage.saving_longterm)
        let addBuf := safeNumber (stage.bind Stage.saving_buffer)
        let st1 := match addLong with
          | some a => { st with currentLongterm := st.currentLongterm + a }
          | none => st
        let changed1 := changed || addLong.isSome
        let st2 := match addBuf with
          | some a => { st1 with currentBuffer := st1.currentBuffer + a }
          | none => st1
        let changed2 := changed1 || addBuf.isSome
        rolloverLoop stages currentYm fuel (addMonths cursor 1)
          { st2 with lastRolloverYm := some ym } changed2
      else .ok (st, changed)

/-- Fuel that dominates the number of loop iterations: one more than the
month distance from the starting cursor to `now`. -/
def rolloverFuel (cursor now : JsDate) : Nat :=
  (monthIdx now - monthIdx cursor).toNat + 1

/-- `applyMonthlyRolloverIfNeeded(stages)` acting on an explicit state and
wall-clock date, returning the new state and the `changed` flag. -/
def applyMonthlyRolloverIfNeeded [LinearOrderedCommRing α]
    (stages : List (Stage α)) (st : GoalState α) (now : JsDate) :
    Except Unit (GoalState α × Bool) :=
  let currentYm := getCurrentYearMonth now
  match st.lastRolloverYm with
  | none => .ok ({ st with lastRolloverYm := some currentYm }, false)
  | some last =>
      if jsStrLe currentYm last then .ok (st, false)
      else
        let cursor := addMonths (parseYearMonth last) 1
        rolloverLoop stages currentYm (rolloverFuel cursor now) cursor st false

/-! ### State seeding and restore -/

/-- `initGoalState(plan)`: seed balances from `plan?.goal?.current_*`
(defaulting non-numbers to 0) and set the watermark to the current month. -/
def initGoalState [LinearOrderedCommRing α] (plan : Option (Plan α))
    (now : JsDate) : GoalState α :=
  let seedLong := safeNumber (numField ((plan.bind Plan.goal).bind Goal.current_longterm))
  let seedBuf := safeNumber (numField ((plan.bind Plan.goal).bind Goal.current_buffer))
  { currentLongterm := seedLong.getD 0
    currentBuffer := seedBuf.getD 0
    lastRolloverYm := some (getCurrentYearMonth now) }

/-- The record served by `GET /api/state` as consumed by `loadPlan`
(numeric fields through `safeNumber`, `last_rollover_ym` kept only when a
string). -/
structure StoredState (α : Type) where
  current_longterm : Option α := none
  current_buffer : Option α := none
  last_rollover_ym : Option String := none
deriving DecidableEq

/-- The state-restore block of `loadPlan` (lines 872-886): adopt stored
balances when both are numeric, taking the stored watermark if it is a
valid year-month and the current month otherwise; with no usable stored
state fall back to `initGoalState`. -/
def restoreOrInitGoalState [LinearOrderedCommRing α] (plan : Option (Plan α))
    (stored : Option (StoredState α)) (now : JsDate) : GoalState α :=
  let storedLong := safeNumber (stored.bind StoredState.current_longterm)
  let storedBuf := safeNumber (stored.bind StoredState.current_buffer)
  let storedYm := stored.bind StoredState.last_rollover_ym
  match storedLong, storedBuf with
  | some l, some b =>
      { currentLongterm := l
        currentBuffer := b
        lastRolloverYm :=
          if isValidYearMonth storedYm then storedYm
          else some (getCurrentYearMonth now) }
  | _, _ => initGoalState plan now

/-! ### Goal projection -/

/-- Result of a projection: `{reached: false}` or `{reached: true, date}`. -/
structure ProjResult where
  reached : Bool
  date : Option JsDate := none
deriving DecidableEq, Repr

/-- `new Date(now.getFullYear(), now.getMonth() + 1, 1)`. -/
def firstOfNextMonth (now : JsDate) : JsDate := mkJsDate now.year (now.month0 + 1)

/-- One simulated month of `projectGoalDate`: resolve the stage, add the
numeric deposits, then multiply the long-term balance by
`1 + monthlyRate` (growth after the deposit, long-term track only). -/
def goalMonthStep [LinearOrderedCommRing α] (monthlyRate : α)
    (stages : List (Stage α)) (ym : String) (b : α × α) :
    Except Unit (α × α) := do
  let stage ← findStageForYearMonth stages ym
  let addLong := safeNumber (stage.bind Stage.saving_longterm)
  let addBuf := safeNumber (stage.bind Stage.saving_buffer)
  let lt1 := match addLong with
    | some a => b.1 + a
    | none => b.1
  let buf1 := match addBuf with
    | some a => b.2 + a
    | none => b.2
  .ok (lt1 * (1 + monthlyRate), buf1)

/-- The 600-iteration simulation loop of `projectGoalDate`: step a month,
then report reached as soon as both thresholds hold. -/
def projectGoalLoop [LinearOrderedCommRing α] (monthlyRate : α)
    (stages : List (Stage α)) (targetLT targetBuf : α) :
    Nat → α × α → JsDate → Except Unit ProjResult
  | 0, _, _ => .ok { reached := false }
  | fuel + 1, b, cursor => do
      let b' ← goalMonthStep monthlyRate stages (getCurrentYearMonth cursor) b
      if targetLT ≤ b'.1 ∧ targetBuf ≤ b'.2 then
        .ok { reached := true, date := some cursor }
      else
        projectGoalLoop monthlyRate stages targetLT targetBuf fuel b' (addMonths cursor 1)

/-- `projectGoalDate(stages, goal)` acting on an explicit state and clock.
The source fixes `monthlyRate = Math.pow(1.08, 1/12) - 1`; the rate is a
parameter here because it is irrational, and the theorems instantiate it
with the exact real value.  The source's `typeof` checks on the seed
balances always pass (the state fields are numbers) and are therefore
vacuous in this embedding. -/
def projectGoalDate [LinearOrderedCommRing α] (monthlyRate : α)
    (stages : List (Stage α)) (goal : Option (Goal α)) (st : GoalState α)
    (now : JsDate) : Except Unit ProjResult :=
  match numField (goal.bind Goal.target_longterm),
        numField (goal.bind Goal.target_buffer) with
  | some targetLT, some targetBuf =>
      if targetLT ≤ 0 then .ok { reached := false }
      else if targetBuf < 0 then .ok { reached := false }
      else if targetLT ≤ st.currentLongterm ∧ targetBuf ≤ st.currentBuffer then
        .ok { reached := true, date := some now }
      else
        projectGoalLoop monthlyRate stages targetLT targetBuf 600
          (st.currentLongterm, st.currentBuffer) (firstOfNextMonth now)
  | none, _ => .ok { reached := false }
  | some _, none => .ok { reached := false }

/-- One simulated month of `projectBufferDate`: resolve the stage and add
its numeric buffer deposit; no growth term exists on this track. -/
def bufferMonthStep [LinearOrderedCommRing α] (stages : List (Stage α))
    (ym : String) (buf : α) : Except Unit α := do
  let stage ← findStageForYearMonth stages ym
  match safeNumber (stage.bind Stage.saving_buffer) with
  | some a => .ok (buf + a)
  | none => .ok buf

/-- The 600-iteration simulation loop of `projectBufferDate`. -/
def projectBufferLoop [LinearOrderedCommRing α] (stages : List (Stage α))
    (targetBuf : α) : Nat → α → JsDate → Except Unit ProjResult
  | 0, _, _ => .ok { reached := false }
  | fuel + 1, buf, cursor => do
      let b' ← bufferMonthStep stages (getCurrentYearMonth cursor) buf
      if targetBuf ≤ b' then .ok { reached := true, date := some cursor }
      else projectBufferLoop stages targetBuf fuel b' (addMonths cursor 1)

/-- `projectBufferDate(stages, goal)`: note the guard rejects
`target_buffer <= 0`, so a zero target is "insufficient configuration"
here, unlike the `< 0` guard of `projectGoalDate`. -/
def projectBufferDate [LinearOrderedCommRing α] (stages : List (Stage α))
    (goal : Option (Goal α)) (st : GoalState α) (now : JsDate) :
    Except Unit ProjResult :=
  match numField (goal.bind Goal.target_buffer) with
  | some targetBuf =>
      if targetBuf ≤ 0 then .ok { reached := false }
      else if targetBuf ≤ st.currentBuffer then
        .ok { reached := true, date := some now }
      else
        projectBufferLoop stages targetBuf 600 st.currentBuffer (firstOfNextMonth now)
  | none => .ok { reached := false }

/-! ### Plan validation -/

/-- The single fail-closed issue for a missing/non-array/empty `stages`. -/
def stagesArrayMsg : String := "Plan must include a non-empty stages array."

/-- JS whitespace as used by `String.prototype.trim` (ASCII subset; the
names in plans are ASCII). -/
def isJsWhitespace (c : Char) : Bool :=
  c == ' ' || c == '\t' || c == '\n' || c == '\r'

/-- `stage.name.trim() === ""`: the name is all whitespace. -/
def isBlankName (s : String) : Bool := s.data.all isJsWhitespace

/-- The issues contributed by stage `i` (0-based; messages are 1-based). -/
def stageIssues (i : Nat) (st : Stage α) : List String :=
  (match st.name with
   | some s =>
       if isBlankName s then ["Stage " ++ toString (i + 1) ++ " is missing a name."]
       else []
   | none => ["Stage " ++ toString (i + 1) ++ " is missing a name."]) ++
  (if isValidYearMonth st.«from» then []
   else ["Stage " ++ toString (i + 1) ++ " must include a valid from (YYYY-MM)."]) ++
  (if isTruthyStr st.«to» && !(isValidYearMonth st.«to») then
     ["Stage " ++ toString (i + 1) ++ " has an invalid to (YYYY-MM)."]
   else [])

/-- The issues contributed by the goal block: presence (`hasOwnProperty`)
of the five required keys, checked only when `plan.goal` is truthy. -/
def goalIssues (g : Option (Goal α)) : List String :=
  match g with
  | none => []
  | some g =>
      (if g.target_longterm.isSome then [] else ["Goal must include target_longterm."]) ++
      (if g.target_buffer.isSome then [] else ["Goal must include target_buffer."]) ++
      (if g.current_longterm.isSome then [] else ["Goal must include current_longterm."]) ++
      (if g.current_buffer.isSome then [] else ["Goal must include current_buffer."]) ++
      (if g.target_year.isSome then [] else ["Goal must include target_year."])

/-- `validatePlan(plan)`: fail closed on `stages`, otherwise accumulate
all per-stage issues in order and then the goal-key issues. -/
def validatePlan (p : Option (Plan α)) : List String :=
  match p with
  | none => [stagesArrayMsg]
  | some plan =>
      match plan.stages with
      | none => [stagesArrayMsg]
      | some [] => [stagesArrayMsg]
      | some l =>
          (l.enum.map (fun ia => stageIssues ia.1 ia.2)).flatten ++ goalIssues plan.goal

/-- The per-stage malformedness observations `validatePlan` checks:
missing/blank name. -/
def badName (st : Stage α) : Bool :=
  match st.name with
  | some s => isBlankName s
  | none => true

/-- Invalid (or missing) `from`. -/
def badFrom (st : Stage α) : Bool := !(isValidYearMonth st.«from»)

/-- Present-but-invalid `to`. -/
def badTo (st : Stage α) : Bool :=
  isTruthyStr st.«to» && !(isValidYearMonth st.«to»)

/-! ### Server `PUT /api/state` handler -/

/-- The JSON scalar values modelled for the balance fields of the state
body: `null`, booleans and numbers, on all of which JS `Number` is exact
rational arithmetic.  String inputs are deliberately unrepresentable
here: `Number` on a string yields an IEEE double (rounding, `Infinity`,
exponent/hex forms) that the exact rational model cannot express, so the
theorems stay silent about them — the same convention as the `Option`
encodings elsewhere in this development, where JS values with divergent
behavior are not representable rather than mis-modelled. -/
inductive JsValue where
  | null
  | jsBool (b : Bool)
  | num (q : ℚ)
deriving DecidableEq

/-- `Number(v)` (ToNumber) on the represented scalars: `null` is 0,
booleans are 0/1, numbers are themselves; none of these is NaN. -/
def jsToNumber : JsValue → Option ℚ
  | .null => some 0
  | .jsBool b => some (if b then 1 else 0)
  | .num q => some q

/-- `Number(v) || 0`: NaN falls back to 0 (a zero result is already 0). -/
def numberOr0 (v : JsValue) : ℚ :=
  match jsToNumber v with
  | some q => q
  | none => 0

/-- The request body of `PUT /api/state`; a missing balance key behaves
like `null` through `Number(...) || 0` (both produce 0).  The watermark
field is `some s` exactly when the JS value is the string `s`, `none`
for every non-string value (absent, `null`, numbers, ...), mirroring the
`typeof === "string"` test the handler performs. -/
structure PutBody where
  current_longterm : JsValue := .null
  current_buffer : JsValue := .null
  last_rollover_ym : Option String := none

/-- The record persisted by `writeState` and echoed by `res.json`. -/
structure StoredRecord where
  current_longterm : ℚ
  current_buffer : ℚ
  last_rollover_ym : Option String
  updated_at : String
deriving DecidableEq

/-- The `app.put("/api/state")` handler: build the coerced record, stamp
the server-side timestamp, persist it, echo it.  The first component is
what `writeState` persists, the second what `res.json` returns.  The
source's `typeof body.last_rollover_ym === "string" ? ... : null`
ternary is the identity on the `Option String` encoding of that field
(`some` exactly for strings, `null` for the rest). -/
def putStateHandler (body : PutBody) (nowIso : String) :
    StoredRecord × StoredRecord :=
  let out : StoredRecord :=
    { current_longterm := numberOr0 body.current_longterm
      current_buffer := numberOr0 body.current_buffer
      last_rollover_ym :=
        match body.last_rollover_ym with
        | some s => some s
        | none => none
      updated_at := nowIso }
  (out, out)

/-! ### Specification-side helper definitions

These do not embed further source code; they are the pure mirrors and
observation functions the theorems compare the embedded code against. -/

/-- JS string conversion of a possibly-missing value, as `localeCompare`
applies to its argument (`undefined` stringifies to `"undefined"`). -/
def jsStringOf : Option String → String
  | some s => s
  | none => "undefined"

/-- The `from` key a stage contributes to the sort comparators. -/
def stageFromStr (s : Stage α) : String := jsStringOf s.«from»

/-- Pure value of `cmpFromDesc` on stages whose `from` is present. -/
def cmpKeyDesc (u v : Stage α) : Ordering :=
  compareStr (stageFromStr v) (stageFromStr u)

/-- Pure value of `cmpFromAsc` on stages whose `from` is present. -/
def cmpKeyAsc (u v : Stage α) : Ordering :=
  compareStr (stageFromStr u) (stageFromStr v)

/-- Pure mirror of `insertSortedJs` for a total comparator. -/
def insertP (c : α → α → Ordering) (x : α) : List α → List α
  | [] => [x]
  | y :: ys => if c x y = .lt then x :: y :: ys else y :: insertP c x ys

/-- Pure mirror of `sortJsGo`. -/
def sortPGo (c : α → α → Ordering) : List α → List α → List α
  | sorted, [] => sorted
  | sorted, x :: xs => sortPGo c (insertP c x sorted) xs

/-- Pure mirror of `sortJs`. -/
def sortP (c : α → α → Ordering) (l : List α) : List α := sortPGo c [] l

/-- The month index one past the largest representable 4-digit year, and
the first 4-digit month index: the window inside which `YYYY-MM` strings
order like their month indices. -/
def idxLo : Int := 12 * 1000
def idxHi : Int := 12 * 9999 + 11

/-- A date whose rendered year-month has a 4-digit year. -/
def inYmRange (d : JsDate) : Prop :=
  1000 ≤ d.year ∧ d.year ≤ 9999 ∧ 0 ≤ d.month0 ∧ d.month0 ≤ 11

instance (d : JsDate) : Decidable (inYmRange d) :=
  inferInstanceAs (Decidable (1000 ≤ d.year ∧ d.year ≤ 9999 ∧ 0 ≤ d.month0 ∧ d.month0 ≤ 11))

/-- The decimal digit characters of a natural number, most significant
first: the structural view of `Nat.repr`. -/
def digitsOf (n : Nat) : List Char :=
  if _ : n < 10 then [Nat.digitChar n]
  else digitsOf (n / 10) ++ [Nat.digitChar (n % 10)]
decreasing_by exact Nat.div_lt_self (by omega) (by omega)

/-- The long-term deposit the rollover/projection credits for a month
(0 when the resolved stage has no numeric `saving_longterm`, or when
resolution fails). -/
def longDepositAt [LinearOrderedCommRing α] (stages : List (Stage α)) (ym : String) : α :=
  match findStageForYearMonth stages ym with
  | .ok (some s) => (s.saving_longterm).getD 0
  | _ => 0

/-- The buffer deposit credited for a month. -/
def bufDepositAt [LinearOrderedCommRing α] (stages : List (Stage α)) (ym : String) : α :=
  match findStageForYearMonth stages ym with
  | .ok (some s) => (s.saving_buffer).getD 0
  | _ => 0

/-- The balance pair `(longterm, buffer)` of `projectGoalDate` after `n`
simulated months starting at `cursor`, obtained by iterating the same
per-month step the loop uses. -/
def goalBalancesAfter [LinearOrderedCommRing α] (monthlyRate : α)
    (stages : List (Stage α)) (cursor : JsDate) (b : α × α) :
    Nat → Except Unit (α × α)
  | 0 => .ok b
  | n + 1 => do
      let b' ← goalMonthStep monthlyRate stages (getCurrentYearMonth cursor) b
      goalBalancesAfter monthlyRate stages (addMonths cursor 1) b' n

/-- The buffer balance of `projectBufferDate` after `n` simulated months. -/
def bufferBalanceAfter [LinearOrderedCommRing α] (stages : List (Stage α))
    (cursor : JsDate) (buf : α) : Nat → Except Unit α
  | 0 => .ok buf
  | n + 1 => do
      let b' ← bufferMonthStep stages (getCurrentYearMonth cursor) buf
      bufferBalanceAfter stages (addMonths cursor 1) b' n

/-! ### Order facts for the embedded JS string comparison -/

theorem charLtB_iff {a b : Char} : charLtB a b = true ↔ a.toNat < b.toNat := by
  simp [charLtB]

theorem char_eq_of_toNat_eq {a b : Char} (h : a.toNat = b.toNat) : a = b :=
  Char.ext (UInt32.ext h)

theorem lexLtB_irrefl (l : List Char) : lexLtB l l = false := by
  induction l with
  | nil => rfl
  | cons a as ih => simp [lexLtB, charLtB, ih]

theorem lexLtB_trans {a b c : List Char} (h1 : lexLtB a b = true)
    (h2 : lexLtB b c = true) : lexLtB a c = true := by
  induction a generalizing b c with
  | nil =>
    cases b with
    | nil => simp [lexLtB] at h1
    | cons y ys =>
      cases c with
      | nil => simp [lexLtB] at h2
      | cons z zs => simp [lexLtB]
  | cons x xs ih =>
    cases b with
    | nil => simp [lexLtB] at h1
    | cons y ys =>
      cases c with
      | nil => simp [lexLtB] at h2
      | cons z zs =>
        simp only [lexLtB, Bool.or_eq_true, Bool.and_eq_true, beq_iff_eq,
          charLtB_iff] at h1 h2 ⊢
        rcases h1 with h1 | ⟨rfl, h1⟩ <;> rcases h2 with h2 | ⟨rfl, h2⟩
        · exact Or.inl (Nat.lt_trans h1 h2)
        · exact Or.inl h1
        · exact Or.inl h2
        · exact Or.inr ⟨rfl, ih h1 h2⟩

theorem lexLtB_asymm {a b : List Char} (h : lexLtB a b = true) :
    lexLtB b a = false := by
  by_contra hc
  have hba : lexLtB b a = true := by
    cases hh : lexLtB b a with
    | false => exact absurd hh hc
    | true => rfl
  have := lexLtB_trans h hba
  rw [lexLtB_irrefl] at this
  exact Bool.false_ne_true this

theorem charLtB_eq_false {a b : Char} :
    charLtB a b = false ↔ b.toNat ≤ a.toNat := by
  simp [charLtB]

theorem lexLtB_total_eq {a b : List Char} (h1 : lexLtB a b = false)
    (h2 : lexLtB b a = false) : a = b := by
  induction a generalizing b with
  | nil =>
    cases b with
    | nil => rfl
    | cons y ys => simp [lexLtB] at h1
  | cons x xs ih =>
    cases b with
    | nil => simp [lexLtB] at h2
    | cons y ys =>
      simp only [lexLtB, Bool.or_eq_false_iff, Bool.and_eq_false_iff,
        charLtB_eq_false, beq_eq_false_iff_ne, ne_eq] at h1 h2
      have hx : x = y :=
        char_eq_of_toNat_eq (Nat.le_antisymm h2.1 h1.1)
      subst hx
      rcases h1.2 with h1b | h1b
      · exact absurd rfl h1b
      · rcases h2.2 with h2b | h2b
        · exact absurd rfl h2b
        · rw [ih h1b h2b]

theorem lexLtB_ne {a b : List Char} (h : lexLtB a b = true) : a ≠ b := by
  intro he
  subst he
  rw [lexLtB_irrefl] at h
  exact Bool.false_ne_true h

theorem string_eq_of_data_eq {a b : String} (h : a.data = b.data) : a = b := by
  cases a
  cases b
  exact congrArg String.mk h

theorem compareStr_eq_lt {a b : String} :
    compareStr a b = .lt ↔ lexLtB a.data b.data = true := by
  unfold compareStr
  split_ifs with h1 h2 <;> simp_all

theorem compareStr_eq_gt {a b : String} :
    compareStr a b = .gt ↔ lexLtB b.data a.data = true := by
  unfold compareStr
  split_ifs with h1 h2
  · have := lexLtB_asymm h1
    simp_all
  · simp_all
  · simp_all

theorem compareStr_eq_eq {a b : String} :
    compareStr a b = .eq ↔ a = b := by
  unfold compareStr
  split_ifs with h1 h2
  · constructor
    · intro hh
      exact absurd hh (by simp)
    · intro hh
      subst hh
      rw [lexLtB_irrefl] at h1
      exact absurd h1 (by simp)
  · constructor
    · intro hh
      exact absurd hh (by simp)
    · intro hh
      subst hh
      rw [lexLtB_irrefl] at h2
      exact absurd h2 (by simp)
  · constructor
    · intro _
      exact string_eq_of_data_eq
        (lexLtB_total_eq (Bool.of_not_eq_true h1) (Bool.of_not_eq_true h2))
    · intro _
      rfl

theorem jsStrLe_iff {a b : String} :
    jsStrLe a b = true ↔ lexLtB b.data a.data = false := by
  simp [jsStrLe]

theorem jsStrLe_refl (a : String) : jsStrLe a a = true := by
  simp [jsStrLe, lexLtB_irrefl]

/-! ### Sort lemmas -/

theorem except_bind_ok {ε α β : Type} (a : α) (f : α → Except ε β) :
    (Except.ok a >>= f) = f a := rfl

theorem insertSortedJs_eq_pure {cmp : α → α → Except Unit Ordering}
    {c : α → α → Ordering} {x : α} {l : List α}
    (h : ∀ y ∈ l, cmp x y = .ok (c x y)) :
    insertSortedJs cmp x l = .ok (insertP c x l) := by
  induction l with
  | nil => rfl
  | cons y ys ih =>
    have hy := h y (List.mem_cons_self y ys)
    have hys : ∀ z ∈ ys, cmp x z = .ok (c x z) :=
      fun z hz => h z (List.mem_cons_of_mem y hz)
    simp only [insertSortedJs, hy, except_bind_ok]
    cases hc : c x y with
    | lt => simp [insertP, hc]
    | eq => simp [insertP, hc, ih hys, except_bind_ok]
    | gt => simp [insertP, hc, ih hys, except_bind_ok]

theorem insertP_perm (c : α → α → Ordering) (x : α) (l : List α) :
    (insertP c x l).Perm (x :: l) := by
  induction l with
  | nil => exact List.Perm.refl _
  | cons y ys ih =>
    by_cases hc : c x y = .lt
    · simp [insertP, hc]
    · simp only [insertP, if_neg hc]
      exact (List.Perm.cons y ih).trans (List.Perm.swap x y ys)

theorem mem_insertP {c : α → α → Ordering} {x v : α} {l : List α}
    (h : v ∈ insertP c x l) : v = x ∨ v ∈ l := by
  have := (insertP_perm c x l).mem_iff.mp h
  simpa using this

theorem sortJsGo_eq_pure {cmp : α → α → Except Unit Ordering}
    {c : α → α → Ordering} {P : α → Prop}
    (hc : ∀ x y, P x → P y → cmp x y = .ok (c x y)) :
    ∀ (l sorted : List α), (∀ x ∈ l, P x) → (∀ y ∈ sorted, P y) →
      sortJsGo cmp sorted l = .ok (sortPGo c sorted l)
  | [], sorted, _, _ => rfl
  | x :: xs, sorted, hl, hs => by
    have hx : P x := hl x (List.mem_cons_self x xs)
    have hins : insertSortedJs cmp x sorted = .ok (insertP c x sorted) :=
      insertSortedJs_eq_pure (fun y hy => hc x y hx (hs y hy))
    simp only [sortJsGo, hins, except_bind_ok, sortPGo]
    exact sortJsGo_eq_pure hc xs (insertP c x sorted)
      (fun z hz => hl z (List.mem_cons_of_mem x hz))
      (fun y hy => (mem_insertP hy).elim (fun he => he ▸ hx) (hs y))

theorem sortJs_eq_pure {cmp : α → α → Except Unit Ordering}
    {c : α → α → Ordering} {P : α → Prop}
    (hc : ∀ x y, P x → P y → cmp x y = .ok (c x y))
    (l : List α) (hl : ∀ x ∈ l, P x) :
    sortJs cmp l = .ok (sortP c l) :=
  sortJsGo_eq_pure hc l [] hl (by intro y hy; simp at hy)

theorem sortPGo_perm (c : α → α → Ordering) :
    ∀ (l sorted : List α), (sortPGo c sorted l).Perm (sorted ++ l)
  | [], sorted => by simp [sortPGo]
  | x :: xs, sorted => by
    have h1 := sortPGo_perm c xs (insertP c x sorted)
    have h2 : (insertP c x sorted ++ xs).Perm (sorted ++ x :: xs) :=
      ((insertP_perm c x sorted).append_right xs).trans List.perm_middle.symm
    exact h1.trans h2

theorem sortP_perm (c : α → α → Ordering) (l : List α) :
    (sortP c l).Perm l := by
  simpa [sortP] using sortPGo_perm c l []

theorem insertP_pairwise {c : α → α → Ordering}
    (hconn : ∀ u v, c u v ≠ .lt → c v u ≠ .gt)
    (htrans : ∀ u v w, c u v ≠ .gt → c v w ≠ .gt → c u w ≠ .gt)
    (x : α) {l : List α} (hl : l.Pairwise (fun u v => c u v ≠ .gt)) :
    (insertP c x l).Pairwise (fun u v => c u v ≠ .gt) := by
  induction l with
  | nil => simp [insertP]
  | cons y ys ih =>
    rw [List.pairwise_cons] at hl
    obtain ⟨hy, hys⟩ := hl
    by_cases hc : c x y = .lt
    · simp only [insertP, if_pos hc]
      refine List.Pairwise.cons ?_ (List.Pairwise.cons hy hys)
      intro z hz
      rcases List.mem_cons.mp hz with rfl | hz
      · simp [hc]
      · exact htrans x y z (by simp [hc]) (hy z hz)
    · simp only [insertP, if_neg hc]
      refine List.Pairwise.cons ?_ (ih hys)
      intro z hz
      rcases mem_insertP hz with hzx | hz
      · rw [hzx]
        exact hconn x y hc
      · exact hy z hz

theorem sortPGo_pairwise {c : α → α → Ordering}
    (hconn : ∀ u v, c u v ≠ .lt → c v u ≠ .gt)
    (htrans : ∀ u v w, c u v ≠ .gt → c v w ≠ .gt → c u w ≠ .gt) :
    ∀ (l sorted : List α),
      sorted.Pairwise (fun u v => c u v ≠ .gt) →
      (sortPGo c sorted l).Pairwise (fun u v => c u v ≠ .gt)
  | [], _, hs => hs
  | x :: xs, sorted, hs =>
    sortPGo_pairwise hconn htrans xs (insertP c x sorted)
      (insertP_pairwise hconn htrans x hs)

theorem sortP_head_spec {c : α → α → Ordering}
    (hconn : ∀ u v, c u v ≠ .lt → c v u ≠ .gt)
    (htrans : ∀ u v w, c u v ≠ .gt → c v w ≠ .gt → c u w ≠ .gt)
    (hrefl : ∀ u, c u u ≠ .gt)
    {l : List α} {x : α} {t : List α} (h : sortP c l = x :: t) :
    x ∈ l ∧ ∀ v ∈ l, c x v ≠ .gt := by
  have hperm := sortP_perm c l
  rw [h] at hperm
  have hpw : (x :: t).Pairwise (fun u v => c u v ≠ .gt) := by
    have := sortPGo_pairwise hconn htrans l [] List.Pairwise.nil
    rwa [show sortPGo c [] l = sortP c l from rfl, h] at this
  rw [List.pairwise_cons] at hpw
  refine ⟨hperm.mem_iff.mp (List.mem_cons_self x t), ?_⟩
  intro v hv
  rcases List.mem_cons.mp (hperm.mem_iff.mpr hv) with rfl | hvt
  · exact hrefl v
  · exact hpw.1 v hvt

/-! ### Stage comparator bridge and resolver characterization -/

theorem lexLtB_lt_of_lt_of_le {a b c : List Char} (h1 : lexLtB a b = true)
    (h2 : lexLtB c b = false) : lexLtB a c = true := by
  cases hbc : lexLtB b c with
  | true => exact lexLtB_trans h1 hbc
  | false =>
    have : b = c := lexLtB_total_eq hbc h2
    exact this ▸ h1

theorem cmpFromDesc_ok {u v : Stage α} (hu : (u.«from»).isSome)
    (hv : (v.«from»).isSome) : cmpFromDesc u v = .ok (cmpKeyDesc u v) := by
  obtain ⟨f, hf⟩ := Option.isSome_iff_exists.mp hv
  obtain ⟨g, hg⟩ := Option.isSome_iff_exists.mp hu
  simp [cmpFromDesc, cmpKeyDesc, localeCompareJs, hf, hg, stageFromStr, jsStringOf]

theorem cmpFromAsc_ok {u v : Stage α} (hu : (u.«from»).isSome)
    (hv : (v.«from»).isSome) : cmpFromAsc u v = .ok (cmpKeyAsc u v) := by
  obtain ⟨f, hf⟩ := Option.isSome_iff_exists.mp hv
  obtain ⟨g, hg⟩ := Option.isSome_iff_exists.mp hu
  simp [cmpFromAsc, cmpKeyAsc, localeCompareJs, hf, hg, stageFromStr, jsStringOf]

theorem cmpKeyDesc_conn (u v : Stage α) (h : cmpKeyDesc u v ≠ .lt) :
    cmpKeyDesc v u ≠ .gt := by
  intro hc
  rw [cmpKeyDesc, compareStr_eq_gt] at hc
  exact h (by rw [cmpKeyDesc, compareStr_eq_lt]; exact hc)

theorem cmpKeyDesc_trans (u v w : Stage α) (h1 : cmpKeyDesc u v ≠ .gt)
    (h2 : cmpKeyDesc v w ≠ .gt) : cmpKeyDesc u w ≠ .gt := by
  intro hc
  rw [cmpKeyDesc, compareStr_eq_gt] at hc
  have h1' : lexLtB (stageFromStr u).data (stageFromStr v).data = false := by
    cases hl : lexLtB (stageFromStr u).data (stageFromStr v).data with
    | false => rfl
    | true => exact absurd (by rw [cmpKeyDesc, compareStr_eq_gt]; exact hl) h1
  have h2' : lexLtB (stageFromStr v).data (stageFromStr w).data = false := by
    cases hl : lexLtB (stageFromStr v).data (stageFromStr w).data with
    | false => rfl
    | true => exact absurd (by rw [cmpKeyDesc, compareStr_eq_gt]; exact hl) h2
  have h3 := lexLtB_lt_of_lt_of_le hc h2'
  rw [h3] at h1'
  simp at h1'

theorem cmpKeyDesc_refl (u : Stage α) : cmpKeyDesc u u ≠ .gt := by
  intro hc
  rw [cmpKeyDesc, compareStr_eq_gt, lexLtB_irrefl] at hc
  exact Bool.false_ne_true hc

theorem cmpKeyAsc_conn (u v : Stage α) (h : cmpKeyAsc u v ≠ .lt) :
    cmpKeyAsc v u ≠ .gt := by
  intro hc
  rw [cmpKeyAsc, compareStr_eq_gt] at hc
  exact h (by rw [cmpKeyAsc, compareStr_eq_lt]; exact hc)

theorem cmpKeyAsc_trans (u v w : Stage α) (h1 : cmpKeyAsc u v ≠ .gt)
    (h2 : cmpKeyAsc v w ≠ .gt) : cmpKeyAsc u w ≠ .gt := by
  intro hc
  rw [cmpKeyAsc, compareStr_eq_gt] at hc
  have h1' : lexLtB (stageFromStr v).data (stageFromStr u).data = false := by
    cases hl : lexLtB (stageFromStr v).data (stageFromStr u).data with
    | false => rfl
    | true => exact absurd (by rw [cmpKeyAsc, compareStr_eq_gt]; exact hl) h1
  have h2' : lexLtB (stageFromStr w).data (stageFromStr v).data = false := by
    cases hl : lexLtB (stageFromStr w).data (stageFromStr v).data with
    | false => rfl
    | true => exact absurd (by rw [cmpKeyAsc, compareStr_eq_gt]; exact hl) h2
  have h3 := lexLtB_lt_of_lt_of_le hc h1'
  rw [h3] at h2'
  simp at h2'

theorem cmpKeyAsc_refl (u : Stage α) : cmpKeyAsc u u ≠ .gt := by
  intro hc
  rw [cmpKeyAsc, compareStr_eq_gt, lexLtB_irrefl] at hc
  exact Bool.false_ne_true hc

theorem jsStrLe_of_desc_notGt {x v : Stage α} (h : cmpKeyDesc x v ≠ .gt) :
    jsStrLe (stageFromStr v) (stageFromStr x) = true := by
  rw [jsStrLe_iff]
  cases hl : lexLtB (stageFromStr x).data (stageFromStr v).data with
  | false => rfl
  | true => exact absurd (by rw [cmpKeyDesc, compareStr_eq_gt]; exact hl) h

theorem jsStrLe_of_asc_notGt {x v : Stage α} (h : cmpKeyAsc x v ≠ .gt) :
    jsStrLe (stageFromStr x) (stageFromStr v) = true := by
  rw [jsStrLe_iff]
  cases hl : lexLtB (stageFromStr v).data (stageFromStr x).data with
  | false => rfl
  | true => exact absurd (by rw [cmpKeyAsc, compareStr_eq_gt]; exact hl) h

theorem sortP_ne_nil {c : α → α → Ordering} {l : List α} (h : l ≠ []) :
    sortP c l ≠ [] := by
  intro hs
  have := sortP_perm c l
  rw [hs] at this
  exact h this.symm.eq_nil

/-- Full characterization of `findStageForYearMonth` on a nonempty list
of stages whose `from` fields are present: the result is the
lexically-greatest-`from` member of the first nonempty tier (greatest
with ties broken by the stable sort), or the smallest-`from` member in
the before-all tier. -/
theorem findStage_spec (stages : List (Stage α)) (ym : String)
    (hne : stages ≠ []) (hfrom : ∀ s ∈ stages, (s.«from»).isSome) :
    ∃ st, findStageForYearMonth stages ym = .ok (some st) ∧
      ((stages.filter (candPred ym) ≠ [] →
        st ∈ stages.filter (candPred ym) ∧
        ∀ c ∈ stages.filter (candPred ym),
          jsStrLe (stageFromStr c) (stageFromStr st) = true) ∧
       (stages.filter (candPred ym) = [] →
        stages.filter (priorPred ym) ≠ [] →
        st ∈ stages.filter (priorPred ym) ∧
        ∀ c ∈ stages.filter (priorPred ym),
          jsStrLe (stageFromStr c) (stageFromStr st) = true) ∧
       (stages.filter (candPred ym) = [] →
        stages.filter (priorPred ym) = [] →
        st ∈ stages ∧
        ∀ c ∈ stages, jsStrLe (stageFromStr st) (stageFromStr c) = true)) := by
  have hse : stages.isEmpty = false := by
    cases h : stages.isEmpty with
    | false => rfl
    | true => exact absurd (List.isEmpty_iff.mp h) hne
  by_cases hcand : stages.filter (candPred ym) = []
  · by_cases hprior : stages.filter (priorPred ym) = []
    · -- tier 3: before-all fallback
      have hsort : sortJs cmpFromAsc stages = .ok (sortP cmpKeyAsc stages) :=
        sortJs_eq_pure (P := fun s => (s.«from»).isSome)
          (fun x y hx hy => cmpFromAsc_ok hx hy) stages hfrom
      cases hsp : sortP cmpKeyAsc stages with
      | nil => exact absurd hsp (sortP_ne_nil hne)
      | cons x t =>
        have hhead := sortP_head_spec cmpKeyAsc_conn cmpKeyAsc_trans
          cmpKeyAsc_refl hsp
        refine ⟨x, ?_, ?_, ?_, ?_⟩
        · simp only [findStageForYearMonth, hse, Bool.false_eq_true, if_false,
            hcand, hprior, List.isEmpty_nil, if_true, hsort, except_bind_ok,
            hsp, List.head?]
        · intro h
          exact absurd hcand h
        · intro _ h
          exact absurd hprior h
        · intro _ _
          exact ⟨hhead.1, fun c hc => jsStrLe_of_asc_notGt (hhead.2 c hc)⟩
    · -- tier 2: gap fallback
      have hsub : ∀ s ∈ stages.filter (priorPred ym), (s.«from»).isSome :=
        fun s hs => hfrom s (List.mem_filter.mp hs).1
      have hsort : sortJs cmpFromDesc (stages.filter (priorPred ym)) =
          .ok (sortP cmpKeyDesc (stages.filter (priorPred ym))) :=
        sortJs_eq_pure (P := fun s => (s.«from»).isSome)
          (fun x y hx hy => cmpFromDesc_ok hx hy) _ hsub
      cases hsp : sortP cmpKeyDesc (stages.filter (priorPred ym)) with
      | nil => exact absurd hsp (sortP_ne_nil hprior)
      | cons x t =>
        have hhead := sortP_head_spec cmpKeyDesc_conn cmpKeyDesc_trans
          cmpKeyDesc_refl hsp
        have hpe : (stages.filter (priorPred ym)).isEmpty = false := by
          cases h : (stages.filter (priorPred ym)).isEmpty with
          | false => rfl
          | true => exact absurd (List.isEmpty_iff.mp h) hprior
        refine ⟨x, ?_, ?_, ?_, ?_⟩
        · simp only [findStageForYearMonth, hse, Bool.false_eq_true, if_false,
            hcand, List.isEmpty_nil, if_true, hpe, hsort, except_bind_ok,
            hsp, List.head?]
        · intro h
          exact absurd hcand h
        · intro _ _
          exact ⟨hhead.1, fun c hc => jsStrLe_of_desc_notGt (hhead.2 c hc)⟩
        · intro _ h
          exact absurd h hprior
  · -- tier 1: exact containment
    have hsub : ∀ s ∈ stages.filter (candPred ym), (s.«from»).isSome :=
      fun s hs => hfrom s (List.mem_filter.mp hs).1
    have hsort : sortJs cmpFromDesc (stages.filter (candPred ym)) =
        .ok (sortP cmpKeyDesc (stages.filter (candPred ym))) :=
      sortJs_eq_pure (P := fun s => (s.«from»).isSome)
        (fun x y hx hy => cmpFromDesc_ok hx hy) _ hsub
    cases hsp : sortP cmpKeyDesc (stages.filter (candPred ym)) with
    | nil => exact absurd hsp (sortP_ne_nil hcand)
    | cons x t =>
      have hhead := sortP_head_spec cmpKeyDesc_conn cmpKeyDesc_trans
        cmpKeyDesc_refl hsp
      have hce : (stages.filter (candPred ym)).isEmpty = false := by
        cases h : (stages.filter (candPred ym)).isEmpty with
        | false => rfl
        | true => exact absurd (List.isEmpty_iff.mp h) hcand
      refine ⟨x, ?_, ?_, ?_, ?_⟩
      · simp only [findStageForYearMonth, hse, Bool.false_eq_true, if_false,
          hce, hsort, except_bind_ok, hsp, List.head?]
      · intro _
        exact ⟨hhead.1, fun c hc => jsStrLe_of_desc_notGt (hhead.2 c hc)⟩
      · intro h
        exact absurd h hcand
      · intro h
        exact absurd h hcand

/-- Stage resolution never raises when every stage's `from` is present. -/
theorem findStage_ok (stages : List (Stage α)) (ym : String)
    (hfrom : ∀ s ∈ stages, (s.«from»).isSome) :
    ∃ r, findStageForYearMonth stages ym = .ok r := by
  cases hs : stages with
  | nil => exact ⟨none, rfl⟩
  | cons a l =>
    obtain ⟨st, hfind, _⟩ :=
      findStage_spec stages ym (by rw [hs]; exact List.cons_ne_nil a l) hfrom
    exact ⟨some st, by rw [← hs]; exact hfind⟩

/-- A single-element stage list always resolves to its stage: every tier
returns the head of a one-element list and the sort makes no comparator
call. -/
theorem findStage_single (s : Stage α) (ym : String) :
    findStageForYearMonth [s] ym = .ok (some s) := by
  by_cases hc : candPred ym s
  · simp [findStageForYearMonth, List.filter, hc, sortJs, sortJsGo,
      insertSortedJs, except_bind_ok]
  · by_cases hp : priorPred ym s
    · simp [findStageForYearMonth, List.filter, hc, hp, sortJs, sortJsGo,
        insertSortedJs, except_bind_ok]
    · simp [findStageForYearMonth, List.filter, hc, hp, sortJs, sortJsGo,
        insertSortedJs, except_bind_ok]

/-! ### Claim C2 and C10 -/

/-- C2: for every non-empty stage list (with present `from` strings, as
the `YYYY-MM` format presumes) and every year-month `ym`,
`findStageForYearMonth` performs the three-tier lookup: among containing
stages it returns one with the lexically-greatest `from`; if none
contains `ym` it returns a greatest-`from` stage among those with
`from <= ym`; if `ym` precedes every `from` it returns a
lexically-smallest-`from` stage; and it returns null exactly on the empty
list, with all comparisons pure lexical string comparison. -/
theorem stageResolver_three_tier_lookup :
    (∀ (stages : List (Stage ℚ)) (ym : String),
      stages ≠ [] → (∀ s ∈ stages, (s.«from»).isSome) →
      ∃ st, findStageForYearMonth stages ym = .ok (some st) ∧
        ((stages.filter (candPred ym) ≠ [] →
          st ∈ stages.filter (candPred ym) ∧
          ∀ c ∈ stages.filter (candPred ym),
            jsStrLe (stageFromStr c) (stageFromStr st) = true) ∧
         (stages.filter (candPred ym) = [] →
          stages.filter (priorPred ym) ≠ [] →
          st ∈ stages.filter (priorPred ym) ∧
          ∀ c ∈ stages.filter (priorPred ym),
            jsStrLe (stageFromStr c) (stageFromStr st) = true) ∧
         (stages.filter (candPred ym) = [] →
          stages.filter (priorPred ym) = [] →
          st ∈ stages ∧
          ∀ c ∈ stages, jsStrLe (stageFromStr st) (stageFromStr c) = true))) ∧
    (∀ ym : String, findStageForYearMonth ([] : List (Stage ℚ)) ym = .ok none) :=
  ⟨fun stages ym hne hfrom => findStage_spec stages ym hne hfrom,
   fun _ => rfl⟩

/-- Witness for C2 at a concrete overlapping pair of stages. -/
theorem stageResolver_three_tier_lookup_witness :
    ∃ st, findStageForYearMonth
        [({ «from» := some "2025-01" } : Stage ℚ), { «from» := some "2025-03" }]
        "2025-06" = .ok (some st) ∧
      (([({ «from» := some "2025-01" } : Stage ℚ),
          { «from» := some "2025-03" }].filter (candPred "2025-06") ≠ [] →
        st ∈ [({ «from» := some "2025-01" } : Stage ℚ),
          { «from» := some "2025-03" }].filter (candPred "2025-06") ∧
        ∀ c ∈ [({ «from» := some "2025-01" } : Stage ℚ),
          { «from» := some "2025-03" }].filter (candPred "2025-06"),
          jsStrLe (stageFromStr c) (stageFromStr st) = true) ∧
       ([({ «from» := some "2025-01" } : Stage ℚ),
          { «from» := some "2025-03" }].filter (candPred "2025-06") = [] →
        [({ «from» := some "2025-01" } : Stage ℚ),
          { «from» := some "2025-03" }].filter (priorPred "2025-06") ≠ [] →
        st ∈ [({ «from» := some "2025-01" } : Stage ℚ),
          { «from» := some "2025-03" }].filter (priorPred "2025-06") ∧
        ∀ c ∈ [({ «from» := some "2025-01" } : Stage ℚ),
          { «from» := some "2025-03" }].filter (priorPred "2025-06"),
          jsStrLe (stageFromStr c) (stageFromStr st) = true) ∧
       ([({ «from» := some "2025-01" } : Stage ℚ),
          { «from» := some "2025-03" }].filter (candPred "2025-06") = [] →
        [({ «from» := some "2025-01" } : Stage ℚ),
          { «from» := some "2025-03" }].filter (priorPred "2025-06") = [] →
        st ∈ [({ «from» := some "2025-01" } : Stage ℚ),
          { «from» := some "2025-03" }] ∧
        ∀ c ∈ [({ «from» := some "2025-01" } : Stage ℚ),
          { «from» := some "2025-03" }],
          jsStrLe (stageFromStr st) (stageFromStr c) = true)) :=
  stageResolver_three_tier_lookup.1
    [{ «from» := some "2025-01" }, { «from» := some "2025-03" }] "2025-06"
    (List.cons_ne_nil _ _) (by decide)

/-- C10: on a non-empty list where every stage's `from` is a string,
resolution is total and returns a non-null stage; without that
precondition it can raise, exhibited by a two-stage list in which a
`from`-less stage is passed as the comparator receiver in the before-all
sort. -/
theorem stageResolver_totality :
    (∀ (stages : List (Stage ℚ)) (ym : String),
      stages ≠ [] → (∀ s ∈ stages, (s.«from»).isSome) →
      ∃ st, findStageForYearMonth stages ym = .ok (some st)) ∧
    findStageForYearMonth
      [({ «from» := some "2030-05" } : Stage ℚ), { name := some "broken" }]
      "2020-01" = .error () := by
  constructor
  · intro stages ym hne hfrom
    obtain ⟨st, hfind, _⟩ := findStage_spec stages ym hne hfrom
    exact ⟨st, hfind⟩
  · rfl

/-- Witness for C10's universally quantified part at a single open stage. -/
theorem stageResolver_totality_witness :
    ∃ st, findStageForYearMonth
        [({ «from» := some "2024-07" } : Stage ℚ)] "2020-01" = .ok (some st) :=
  stageResolver_totality.1 [{ «from» := some "2024-07" }] "2020-01"
    (List.cons_ne_nil _ _) (by decide)

/-! ### Date arithmetic lemmas -/

theorem mkJsDate_idx (y m0 : Int) : monthIdx (mkJsDate y m0) = 12 * y + m0 := by
  have h := Int.fdiv_add_fmod m0 12
  simp only [monthIdx, mkJsDate]
  omega

theorem mkJsDate_month0_nonneg (y m0 : Int) : 0 ≤ (mkJsDate y m0).month0 :=
  Int.fmod_nonneg' m0 (by norm_num)

theorem mkJsDate_month0_le (y m0 : Int) : (mkJsDate y m0).month0 ≤ 11 := by
  have := Int.fmod_lt_of_pos m0 (b := 12) (by norm_num)
  simp only [mkJsDate]
  omega

theorem addMonths_idx (d : JsDate) (k : Int) :
    monthIdx (addMonths d k) = monthIdx d + k := by
  rw [addMonths, mkJsDate_idx]
  simp only [monthIdx]
  ring

theorem addMonths_month0_nonneg (d : JsDate) (k : Int) :
    0 ≤ (addMonths d k).month0 := mkJsDate_month0_nonneg _ _

theorem addMonths_month0_le (d : JsDate) (k : Int) :
    (addMonths d k).month0 ≤ 11 := mkJsDate_month0_le _ _

theorem date_eq_of_idx {d1 d2 : JsDate} (hm1 : 0 ≤ d1.month0)
    (hm1' : d1.month0 ≤ 11) (hm2 : 0 ≤ d2.month0) (hm2' : d2.month0 ≤ 11)
    (h : monthIdx d1 = monthIdx d2) : d1 = d2 := by
  cases d1 with
  | mk y1 m1 =>
    cases d2 with
    | mk y2 m2 =>
      simp only [monthIdx] at h
      simp only at hm1 hm1' hm2 hm2'
      have hy : y1 = y2 := by omega
      have hm : m1 = m2 := by omega
      rw [hy, hm]

theorem addMonths_zero {d : JsDate} (hm : 0 ≤ d.month0) (hm' : d.month0 ≤ 11) :
    addMonths d 0 = d := by
  refine date_eq_of_idx (addMonths_month0_nonneg d 0) (addMonths_month0_le d 0)
    hm hm' ?_
  rw [addMonths_idx]
  ring

theorem addMonths_addMonths (d : JsDate) (a b : Int) :
    addMonths (addMonths d a) b = addMonths d (a + b) := by
  refine date_eq_of_idx (addMonths_month0_nonneg _ _) (addMonths_month0_le _ _)
    (addMonths_month0_nonneg _ _) (addMonths_month0_le _ _) ?_
  rw [addMonths_idx, addMonths_idx, addMonths_idx]
  ring

theorem inYmRange_iff_idx {d : JsDate} (hm : 0 ≤ d.month0)
    (hm' : d.month0 ≤ 11) :
    inYmRange d ↔ (idxLo ≤ monthIdx d ∧ monthIdx d ≤ idxHi) := by
  simp only [inYmRange, monthIdx, idxLo, idxHi]
  omega

/-! ### Decimal representation lemmas -/

theorem toDigitsCore_eq_digitsOf :
    ∀ (fuel n : Nat) (acc : List Char), n < fuel →
      Nat.toDigitsCore 10 fuel n acc = digitsOf n ++ acc := by
  intro fuel
  induction fuel with
  | zero => intro n acc h; omega
  | succ f ih =>
    intro n acc h
    by_cases hn : n / 10 = 0
    · have hlt : n < 10 := by omega
      simp only [Nat.toDigitsCore, hn, if_true]
      rw [digitsOf, dif_pos hlt]
      simp [Nat.mod_eq_of_lt hlt]
    · have hge : ¬ n < 10 := by omega
      have hdiv : n / 10 < f := by
        have := Nat.div_lt_self (show 0 < n by omega) (show 1 < 10 by omega)
        omega
      simp only [Nat.toDigitsCore, hn, if_false]
      rw [digitsOf, dif_neg hge]
      rw [ih (n / 10) _ hdiv]
      simp [List.append_assoc]

theorem natRepr_data (n : Nat) : (Nat.repr n).data = digitsOf n := by
  have h := toDigitsCore_eq_digitsOf (n + 1) n [] (by omega)
  simp only [Nat.repr, Nat.toDigits, h, List.append_nil]
  rfl

theorem digitChar_lt_iff :
    ∀ a, a < 10 → ∀ b, b < 10 →
      charLtB (Nat.digitChar a) (Nat.digitChar b) = decide (a < b) := by decide

theorem digitChar_beq_iff :
    ∀ a, a < 10 → ∀ b, b < 10 →
      (Nat.digitChar a == Nat.digitChar b) = decide (a = b) := by decide

theorem digitChar_isDigit : ∀ a, a < 10 → (Nat.digitChar a).isDigit = true := by
  decide

theorem digitChar_digitVal : ∀ a, a < 10 → digitVal (Nat.digitChar a) = a := by
  decide

theorem digitChar_ne_dash : ∀ a, a < 10 → (Nat.digitChar a == '-') = false := by
  decide

theorem lexLtB_append_eqlen :
    ∀ {X Y : List Char}, X.length = Y.length → ∀ (xs ys : List Char),
      lexLtB (X ++ xs) (Y ++ ys) = (lexLtB X Y || (X == Y && lexLtB xs ys)) := by
  intro X
  induction X with
  | nil =>
    intro Y h xs ys
    cases Y with
    | nil => simp [lexLtB]
    | cons y Y' => simp at h
  | cons x X' ih =>
    intro Y h xs ys
    cases Y with
    | nil => simp at h
    | cons y Y' =>
      have hbeq : ((x :: X') == (y :: Y')) = (x == y && (X' == Y')) := rfl
      simp only [List.cons_append, lexLtB, List.append_eq,
        ih (by simpa using h) xs ys, hbeq]
      cases charLtB x y <;> cases x == y <;> cases lexLtB X' Y' <;>
        cases X' == Y' <;> cases lexLtB xs ys <;> rfl

theorem digitsOf_four {n : Nat} (h1 : 1000 ≤ n) (h2 : n ≤ 9999) :
    digitsOf n = [Nat.digitChar (n / 1000), Nat.digitChar (n / 100 % 10),
      Nat.digitChar (n / 10 % 10), Nat.digitChar (n % 10)] := by
  have e1 : n / 10 / 10 = n / 100 := by rw [Nat.div_div_eq_div_mul]
  have e2 : n / 100 / 10 = n / 1000 := by rw [Nat.div_div_eq_div_mul]
  rw [digitsOf, dif_neg (by omega : ¬ n < 10)]
  rw [digitsOf, dif_neg (by omega : ¬ n / 10 < 10)]
  rw [digitsOf, dif_neg (by rw [e1]; omega : ¬ n / 10 / 10 < 10)]
  rw [digitsOf, dif_pos (by rw [e1, e2]; omega : n / 10 / 10 / 10 < 10)]
  rw [e1, e2]
  rfl

theorem lexLtB_four_lt {n1 n2 : Nat} (h1 : 1000 ≤ n1) (h1' : n1 ≤ 9999)
    (h2 : 1000 ≤ n2) (h2' : n2 ≤ 9999) :
    lexLtB (digitsOf n1) (digitsOf n2) = decide (n1 < n2) := by
  rw [digitsOf_four h1 h1', digitsOf_four h2 h2']
  have c3 := digitChar_lt_iff (n1 / 1000) (by omega) (n2 / 1000) (by omega)
  have c2 := digitChar_lt_iff (n1 / 100 % 10) (by omega) (n2 / 100 % 10) (by omega)
  have c1 := digitChar_lt_iff (n1 / 10 % 10) (by omega) (n2 / 10 % 10) (by omega)
  have c0 := digitChar_lt_iff (n1 % 10) (by omega) (n2 % 10) (by omega)
  have e3 := digitChar_beq_iff (n1 / 1000) (by omega) (n2 / 1000) (by omega)
  have e2 := digitChar_beq_iff (n1 / 100 % 10) (by omega) (n2 / 100 % 10) (by omega)
  have e1 := digitChar_beq_iff (n1 / 10 % 10) (by omega) (n2 / 10 % 10) (by omega)
  have e0 := digitChar_beq_iff (n1 % 10) (by omega) (n2 % 10) (by omega)
  simp only [lexLtB, c3, c2, c1, c0, e3, e2, e1, e0]
  rw [Bool.eq_iff_iff]
  simp only [Bool.or_eq_true, Bool.and_eq_true, decide_eq_true_eq,
    Bool.and_false, Bool.or_false]
  omega

theorem intToString_eq {y : Int} (h : 0 ≤ y) :
    toString y = Nat.repr y.toNat := by
  obtain ⟨n, rfl⟩ := Int.eq_ofNat_of_zero_le h
  rfl

theorem yearStr_lex {y1 y2 : Int} (h1 : 1000 ≤ y1) (h1' : y1 ≤ 9999)
    (h2 : 1000 ≤ y2) (h2' : y2 ≤ 9999) :
    lexLtB (toString y1).data (toString y2).data = decide (y1 < y2) := by
  rw [intToString_eq (by omega), intToString_eq (by omega),
    natRepr_data, natRepr_data,
    lexLtB_four_lt (by omega) (by omega) (by omega) (by omega)]
  rw [decide_eq_decide]
  omega

theorem yearStr_beq {y1 y2 : Int} (h1 : 1000 ≤ y1) (h1' : y1 ≤ 9999)
    (h2 : 1000 ≤ y2) (h2' : y2 ≤ 9999) :
    ((toString y1).data == (toString y2).data) = decide (y1 = y2) := by
  by_cases he : y1 = y2
  · subst he
    simp
  · rw [decide_eq_false he]
    rcases Int.lt_or_lt_of_ne he with hlt | hlt
    · have := yearStr_lex h1 h1' h2 h2'
      rw [decide_eq_true hlt] at this
      exact beq_eq_false_iff_ne.mpr (lexLtB_ne this)
    · have := yearStr_lex h2 h2' h1 h1'
      rw [decide_eq_true hlt] at this
      exact beq_eq_false_iff_ne.mpr (Ne.symm (lexLtB_ne this))

theorem yearStr_length {y : Int} (h : 1000 ≤ y) (h' : y ≤ 9999) :
    (toString y).data.length = 4 := by
  rw [intToString_eq (by omega), natRepr_data,
    digitsOf_four (by omega) (by omega)]
  rfl

theorem monthStr_lex {m1 m2 : Int} (h1 : 0 ≤ m1) (h1' : m1 ≤ 11)
    (h2 : 0 ≤ m2) (h2' : m2 ≤ 11) :
    lexLtB (padStart2 (toString (m1 + 1))).data
      (padStart2 (toString (m2 + 1))).data = decide (m1 < m2) := by
  interval_cases m1 <;> interval_cases m2 <;> decide

theorem ymStr_data (d : JsDate) : (getCurrentYearMonth d).data =
    (toString d.year).data ++
      '-' :: (padStart2 (toString (d.month0 + 1))).data := by
  simp [getCurrentYearMonth, String.data_append]

theorem ymStr_lexLt {d1 d2 : JsDate} (r1 : inYmRange d1) (r2 : inYmRange d2) :
    lexLtB (getCurrentYearMonth d1).data (getCurrentYearMonth d2).data =
      decide (monthIdx d1 < monthIdx d2) := by
  obtain ⟨hy1, hy1', hm1, hm1'⟩ := r1
  obtain ⟨hy2, hy2', hm2, hm2'⟩ := r2
  rw [ymStr_data, ymStr_data,
    lexLtB_append_eqlen
      ((yearStr_length hy1 hy1').trans (yearStr_length hy2 hy2').symm)]
  have hdash : lexLtB ('-' :: (padStart2 (toString (d1.month0 + 1))).data)
      ('-' :: (padStart2 (toString (d2.month0 + 1))).data) =
      lexLtB (padStart2 (toString (d1.month0 + 1))).data
        (padStart2 (toString (d2.month0 + 1))).data := by
    simp [lexLtB, charLtB]
  rw [hdash, yearStr_lex hy1 hy1' hy2 hy2', yearStr_beq hy1 hy1' hy2 hy2',
    monthStr_lex hm1 hm1' hm2 hm2']
  rw [Bool.eq_iff_iff]
  simp only [Bool.or_eq_true, Bool.and_eq_true, decide_eq_true_eq, monthIdx]
  omega

theorem jsStrLe_ym_iff {d1 d2 : JsDate} (r1 : inYmRange d1) (r2 : inYmRange d2) :
    jsStrLe (getCurrentYearMonth d1) (getCurrentYearMonth d2) = true ↔
      monthIdx d1 ≤ monthIdx d2 := by
  simp only [jsStrLe, ymStr_lexLt r2 r1, Bool.not_eq_true',
    decide_eq_false_iff_not, not_lt]

theorem jsStrLe_ym_false {d1 d2 : JsDate} (r1 : inYmRange d1)
    (r2 : inYmRange d2) (h : monthIdx d2 < monthIdx d1) :
    jsStrLe (getCurrentYearMonth d1) (getCurrentYearMonth d2) = false := by
  cases hb : jsStrLe (getCurrentYearMonth d1) (getCurrentYearMonth d2) with
  | false => rfl
  | true => exact absurd ((jsStrLe_ym_iff r1 r2).mp hb) (by omega)

theorem jsStrLt_ym_iff {d1 d2 : JsDate} (r1 : inYmRange d1) (r2 : inYmRange d2) :
    jsStrLt (getCurrentYearMonth d1) (getCurrentYearMonth d2) = true ↔
      monthIdx d1 < monthIdx d2 := by
  simp only [jsStrLt, ymStr_lexLt r1 r2, decide_eq_true_eq]

theorem ymStr_inj {d1 d2 : JsDate} (r1 : inYmRange d1) (r2 : inYmRange d2)
    (h : getCurrentYearMonth d1 = getCurrentYearMonth d2) :
    monthIdx d1 = monthIdx d2 := by
  have h1 : jsStrLe (getCurrentYearMonth d1) (getCurrentYearMonth d2) = true := by
    rw [h]; exact jsStrLe_refl _
  have h2 : jsStrLe (getCurrentYearMonth d2) (getCurrentYearMonth d1) = true := by
    rw [h]; exact jsStrLe_refl _
  have := (jsStrLe_ym_iff r1 r2).mp h1
  have := (jsStrLe_ym_iff r2 r1).mp h2
  omega

/-! ### `parseYearMonth` round trip -/

theorem splitDashAux_no_dash :
    ∀ (B acc : List Char), (∀ c ∈ B, (c == '-') = false) →
      splitDashAux B acc = [acc.reverse ++ B] := by
  intro B
  induction B with
  | nil => intro acc _; simp [splitDashAux]
  | cons c cs ih =>
    intro acc h
    rw [splitDashAux]
    rw [if_neg (by simp [h c (List.mem_cons_self c cs)])]
    rw [ih (c :: acc) (fun z hz => h z (List.mem_cons_of_mem c hz))]
    simp

theorem splitDashAux_dash :
    ∀ (A : List Char), (∀ c ∈ A, (c == '-') = false) → ∀ (B acc : List Char),
      splitDashAux (A ++ '-' :: B) acc = (acc.reverse ++ A) :: splitDashAux B [] := by
  intro A
  induction A with
  | nil =>
    intro _ B acc
    simp [splitDashAux]
  | cons c cs ih =>
    intro h B acc
    rw [List.cons_append, splitDashAux]
    rw [if_neg (by simp [h c (List.mem_cons_self c cs)])]
    rw [ih (fun z hz => h z (List.mem_cons_of_mem c hz)) B (c :: acc)]
    simp

theorem yearStr_no_dash {y : Int} (h : 1000 ≤ y) (h' : y ≤ 9999) :
    ∀ c ∈ (toString y).data, (c == '-') = false := by
  rw [intToString_eq (by omega), natRepr_data, digitsOf_four (by omega) (by omega)]
  intro c hc
  simp only [List.mem_cons, List.not_mem_nil, or_false] at hc
  rcases hc with rfl | rfl | rfl | rfl
  · exact digitChar_ne_dash _ (by omega)
  · exact digitChar_ne_dash _ (by omega)
  · exact digitChar_ne_dash _ (by omega)
  · exact digitChar_ne_dash _ (by omega)

theorem yearStr_parse {y : Int} (h : 1000 ≤ y) (h' : y ≤ 9999) :
    parseDigits (toString y).data 0 = some y.toNat := by
  rw [intToString_eq (by omega), natRepr_data, digitsOf_four (by omega) (by omega)]
  have d3 : y.toNat / 1000 < 10 := by omega
  have d2 : y.toNat / 100 % 10 < 10 := by omega
  have d1 : y.toNat / 10 % 10 < 10 := by omega
  have d0 : y.toNat % 10 < 10 := by omega
  simp only [parseDigits, digitChar_isDigit _ d3, digitChar_isDigit _ d2,
    digitChar_isDigit _ d1, digitChar_isDigit _ d0, if_true,
    digitChar_digitVal _ d3, digitChar_digitVal _ d2,
    digitChar_digitVal _ d1, digitChar_digitVal _ d0]
  congr 1
  omega

theorem monthStr_no_dash {m : Int} (h : 0 ≤ m) (h' : m ≤ 11) :
    ∀ c ∈ (padStart2 (toString (m + 1))).data, (c == '-') = false := by
  interval_cases m <;> decide

theorem monthStr_parse {m : Int} (h : 0 ≤ m) (h' : m ≤ 11) :
    parseDigits (padStart2 (toString (m + 1))).data 0 = some (m.toNat + 1) := by
  interval_cases m <;> decide

theorem parseYm_roundtrip {d : JsDate} (r : inYmRange d) :
    parseYearMonth (getCurrentYearMonth d) = d := by
  obtain ⟨hy, hy', hm, hm'⟩ := r
  rw [parseYearMonth, ymStr_data,
    splitDashAux_dash _ (yearStr_no_dash hy hy') _ [],
    splitDashAux_no_dash _ [] (monthStr_no_dash hm hm')]
  simp only [List.reverse_nil, List.nil_append]
  rw [yearStr_parse hy hy', monthStr_parse hm hm']
  refine date_eq_of_idx (mkJsDate_month0_nonneg _ _) (mkJsDate_month0_le _ _)
    hm hm' ?_
  rw [mkJsDate_idx]
  simp only [monthIdx]
  have e1 : Int.ofNat d.year.toNat = d.year := Int.toNat_of_nonneg (by omega)
  have e2 : Int.ofNat (d.month0.toNat + 1) = Int.ofNat d.month0.toNat + 1 := rfl
  have e3 : Int.ofNat d.month0.toNat = d.month0 := Int.toNat_of_nonneg (by omega)
  rw [e1, e2, e3]
  ring

/-! ### Rollover loop specification -/

theorem rolloverLoop_succ_step [LinearOrderedCommRing α] (stages : List (Stage α))
    (cym : String) (f : Nat) (cursor : JsDate) (st : GoalState α)
    (changed : Bool)
    (hguard : jsStrLe (getCurrentYearMonth cursor) cym = true)
    {stg : Option (Stage α)}
    (hstg : findStageForYearMonth stages (getCurrentYearMonth cursor) = .ok stg) :
    ∃ st2 ch2, rolloverLoop stages cym (f + 1) cursor st changed =
        rolloverLoop stages cym f (addMonths cursor 1) st2 ch2 ∧
      st2.currentLongterm =
        st.currentLongterm + longDepositAt stages (getCurrentYearMonth cursor) ∧
      st2.currentBuffer =
        st.currentBuffer + bufDepositAt stages (getCurrentYearMonth cursor) ∧
      st2.lastRolloverYm = some (getCurrentYearMonth cursor) := by
  simp only [rolloverLoop, hguard, if_true, hstg, except_bind_ok, safeNumber]
  refine ⟨_, _, rfl, ?_, ?_, ?_⟩
  · rcases stg with _ | s
    · simp [longDepositAt, hstg]
    · rcases hdl : s.saving_longterm with _ | dl <;>
        rcases hdb : s.saving_buffer with _ | db <;>
        simp [longDepositAt, hstg, hdl, hdb]
  · rcases stg with _ | s
    · simp [bufDepositAt, hstg]
    · rcases hdl : s.saving_longterm with _ | dl <;>
        rcases hdb : s.saving_buffer with _ | db <;>
        simp [bufDepositAt, hstg, hdl, hdb]
  · rcases stg with _ | s
    · simp
    · rcases hdl : s.saving_longterm with _ | dl <;>
        rcases hdb : s.saving_buffer with _ | db <;>
        simp [hdl, hdb]

theorem depSum_shift [AddCommMonoid α] (g : JsDate → α) {cursor : JsDate}
    (hm : 0 ≤ cursor.month0) (hm' : cursor.month0 ≤ 11) (n : Nat) :
    ((List.range (n + 1)).map (fun k : Nat => g (addMonths cursor (k : Int)))).sum =
      g cursor +
        ((List.range n).map
          (fun k : Nat => g (addMonths (addMonths cursor 1) (k : Int)))).sum := by
  rw [List.range_succ_eq_map, List.map_cons, List.sum_cons, List.map_map]
  congr 1
  · rw [show ((0 : Nat) : Int) = 0 from rfl, addMonths_zero hm hm']
  · apply congrArg
    apply List.map_congr_left
    intro k _
    simp only [Function.comp]
    rw [addMonths_addMonths]
    congr 1
    push_cast
    ring_nf

theorem rolloverLoop_spec [LinearOrderedCommRing α] {stages : List (Stage α)}
    (hfrom : ∀ s ∈ stages, (s.«from»).isSome) {now : JsDate}
    (hnm : 0 ≤ now.month0) (hnm' : now.month0 ≤ 11)
    (hnlo : idxLo ≤ monthIdx now) (hnhi : monthIdx now < idxHi) :
    ∀ (n fuel : Nat) (cursor : JsDate) (st : GoalState α) (changed : Bool),
      0 ≤ cursor.month0 → cursor.month0 ≤ 11 →
      idxLo ≤ monthIdx cursor →
      monthIdx cursor + n = monthIdx now + 1 →
      n ≤ fuel →
      ∃ st' ch,
        rolloverLoop stages (getCurrentYearMonth now) fuel cursor st changed =
          .ok (st', ch) ∧
        st'.currentLongterm = st.currentLongterm +
          ((List.range n).map (fun k : Nat =>
            longDepositAt stages (getCurrentYearMonth (addMonths cursor (k : Int))))).sum ∧
        st'.currentBuffer = st.currentBuffer +
          ((List.range n).map (fun k : Nat =>
            bufDepositAt stages (getCurrentYearMonth (addMonths cursor (k : Int))))).sum ∧
        st'.lastRolloverYm = (if n = 0 then st.lastRolloverYm
          else some (getCurrentYearMonth (addMonths cursor ((n : Int) - 1)))) := by
  have hnow : inYmRange now := (inYmRange_iff_idx hnm hnm').mpr (by omega)
  intro n
  induction n with
  | zero =>
    intro fuel cursor st changed hm hm' hlo hidx _
    have hcur : inYmRange cursor := (inYmRange_iff_idx hm hm').mpr (by omega)
    refine ⟨st, changed, ?_, by simp, by simp, by simp⟩
    cases fuel with
    | zero => rfl
    | succ f =>
      rw [rolloverLoop,
        if_neg (by rw [jsStrLe_ym_false hcur hnow (by omega)]; simp)]
  | succ n ih =>
    intro fuel cursor st changed hm hm' hlo hidx hfuel
    cases fuel with
    | zero => omega
    | succ f =>
      have hcur : inYmRange cursor := (inYmRange_iff_idx hm hm').mpr (by omega)
      have hguard : jsStrLe (getCurrentYearMonth cursor) (getCurrentYearMonth now) = true :=
        (jsStrLe_ym_iff hcur hnow).mpr (by omega)
      obtain ⟨stg, hstg⟩ := findStage_ok stages (getCurrentYearMonth cursor) hfrom
      obtain ⟨st2, ch2, hstep, h2L, h2B, h2Y⟩ :=
        rolloverLoop_succ_step stages (getCurrentYearMonth now) f cursor st
          changed hguard hstg
      obtain ⟨st', ch, hloop, hL, hB, hY⟩ :=
        ih f (addMonths cursor 1) st2 ch2
          (addMonths_month0_nonneg _ _) (addMonths_month0_le _ _)
          (by rw [addMonths_idx]; omega)
          (by rw [addMonths_idx]; omega)
          (by omega)
      refine ⟨st', ch, by rw [hstep, hloop], ?_, ?_, ?_⟩
      · rw [hL, h2L,
          depSum_shift (fun d => longDepositAt stages (getCurrentYearMonth d)) hm hm' n]
        ring_nf
      · rw [hB, h2B,
          depSum_shift (fun d => bufDepositAt stages (getCurrentYearMonth d)) hm hm' n]
        ring_nf
      · rw [hY]
        cases n with
        | zero =>
          rw [if_pos rfl, h2Y, if_neg (by omega : ¬ 0 + 1 = 0)]
          rw [show (((0 + 1 : Nat) : Int) - 1) = 0 by norm_num]
          rw [addMonths_zero hm hm']
        | succ m =>
          rw [if_neg (by omega : ¬ m + 1 = 0), if_neg (by omega : ¬ m + 1 + 1 = 0)]
          rw [addMonths_addMonths]
          have hc : (1 : Int) + (((m + 1 : Nat) : Int) - 1) =
              ((m + 1 + 1 : Nat) : Int) - 1 := by push_cast; ring
          rw [hc]

/-- Catch-up specification of `applyMonthlyRolloverIfNeeded`: with a set
watermark strictly (lexically) earlier than the current month, the
balances gain exactly the per-month deposits of the stepped months
`last + 1 .. now` and the watermark lands on the current month. -/
theorem applyRollover_catchup [LinearOrderedCommRing α]
    (stages : List (Stage α)) (st : GoalState α) (dLast now : JsDate)
    (hfrom : ∀ s ∈ stages, (s.«from»).isSome)
    (hrl : inYmRange dLast) (hrn : inYmRange now)
    (hhi : monthIdx now < idxHi)
    (hlast : st.lastRolloverYm = some (getCurrentYearMonth dLast))
    (hlt : jsStrLt (getCurrentYearMonth dLast) (getCurrentYearMonth now) = true) :
    ∃ ch, applyMonthlyRolloverIfNeeded stages st now =
      .ok ({ currentLongterm := st.currentLongterm +
               ((List.range ((monthIdx now - monthIdx dLast).toNat)).map
                 (fun k : Nat => longDepositAt stages
                   (getCurrentYearMonth (addMonths dLast ((k : Int) + 1))))).sum
             currentBuffer := st.currentBuffer +
               ((List.range ((monthIdx now - monthIdx dLast).toNat)).map
                 (fun k : Nat => bufDepositAt stages
                   (getCurrentYearMonth (addMonths dLast ((k : Int) + 1))))).sum
             lastRolloverYm := some (getCurrentYearMonth now) }, ch) := by
  have hidx : monthIdx dLast < monthIdx now := (jsStrLt_ym_iff hrl hrn).mp hlt
  obtain ⟨hly, hly', hlm, hlm'⟩ := hrl
  obtain ⟨hny, hny', hnm, hnm'⟩ := hrn
  have hllo : idxLo ≤ monthIdx dLast :=
    ((inYmRange_iff_idx hlm hlm').mp ⟨hly, hly', hlm, hlm'⟩).1
  have hnlo : idxLo ≤ monthIdx now :=
    ((inYmRange_iff_idx hnm hnm').mp ⟨hny, hny', hnm, hnm'⟩).1
  have hguard : jsStrLe (getCurrentYearMonth now) (getCurrentYearMonth dLast) = false :=
    jsStrLe_ym_false ⟨hny, hny', hnm, hnm'⟩ ⟨hly, hly', hlm, hlm'⟩ hidx
  set N : Nat := (monthIdx now - monthIdx dLast).toNat with hN
  have hN1 : 1 ≤ N := by omega
  obtain ⟨st', ch, hloop, hL, hB, hY⟩ :=
    rolloverLoop_spec hfrom hnm hnm' hnlo hhi N
      (rolloverFuel (addMonths dLast 1) now)
      (addMonths dLast 1) st false
      (addMonths_month0_nonneg _ _) (addMonths_month0_le _ _)
      (by rw [addMonths_idx]; simp only [idxLo] at hllo ⊢; omega)
      (by rw [addMonths_idx]; omega)
      (by rw [rolloverFuel, addMonths_idx]; omega)
  refine ⟨ch, ?_⟩
  rw [applyMonthlyRolloverIfNeeded]
  rw [hlast]
  simp only [hguard, Bool.false_eq_true, if_false,
    parseYm_roundtrip ⟨hly, hly', hlm, hlm'⟩]
  rw [hloop]
  have hnoweq : addMonths (addMonths dLast 1) ((N : Int) - 1) = now := by
    refine date_eq_of_idx (addMonths_month0_nonneg _ _) (addMonths_month0_le _ _)
      hnm hnm' ?_
    rw [addMonths_idx, addMonths_idx]
    omega
  have hst' : st' =
      { currentLongterm := st.currentLongterm +
          ((List.range N).map (fun k : Nat => longDepositAt stages
            (getCurrentYearMonth (addMonths dLast ((k : Int) + 1))))).sum
        currentBuffer := st.currentBuffer +
          ((List.range N).map (fun k : Nat => bufDepositAt stages
            (getCurrentYearMonth (addMonths dLast ((k : Int) + 1))))).sum
        lastRolloverYm := some (getCurrentYearMonth now) } := by
    have hmap : ∀ (g : JsDate → α),
        (List.range N).map (fun k : Nat => g (addMonths (addMonths dLast 1) (k : Int))) =
        (List.range N).map (fun k : Nat => g (addMonths dLast ((k : Int) + 1))) := by
      intro g
      apply List.map_congr_left
      intro k _
      rw [addMonths_addMonths]
      congr 2
      ring
    cases st' with
    | mk a b c =>
      simp only at hL hB hY
      simp only [GoalState.mk.injEq]
      refine ⟨?_, ?_, ?_⟩
      · rw [hL, hmap (fun d => longDepositAt stages (getCurrentYearMonth d))]
      · rw [hB, hmap (fun d => bufDepositAt stages (getCurrentYearMonth d))]
      · rw [hY, if_neg (by omega : ¬ N = 0), hnoweq]
  rw [hst']

/-! ### Claims C6 and C1 -/

/-- C6: when the current month is lexically at or before the stored
watermark, rollover returns the state unchanged and reports no change;
applying it twice in succession is therefore a no-op both times, as at
the concrete instance `last_rollover_ym = "2025-03"`, `now = 2025-03`. -/
theorem rollover_noop_idempotent :
    (∀ (stages : List (Stage ℚ)) (st : GoalState ℚ) (now : JsDate) (l : String),
      st.lastRolloverYm = some l →
      jsStrLe (getCurrentYearMonth now) l = true →
      applyMonthlyRolloverIfNeeded stages st now = .ok (st, false) ∧
      (applyMonthlyRolloverIfNeeded stages st now).bind
        (fun p => applyMonthlyRolloverIfNeeded stages p.1 now) = .ok (st, false)) ∧
    applyMonthlyRolloverIfNeeded ([] : List (Stage ℚ))
      ⟨5, 7, some "2025-03"⟩ ⟨2025, 2⟩ = .ok (⟨5, 7, some "2025-03"⟩, false) := by
  constructor
  · intro stages st now l hl hle
    have h1 : applyMonthlyRolloverIfNeeded stages st now = .ok (st, false) := by
      rw [applyMonthlyRolloverIfNeeded, hl]
      simp only [hle, if_true]
    exact ⟨h1, by rw [h1, Except.bind]; exact h1⟩
  · rfl

/-- Witness for C6 at a concrete state and month. -/
theorem rollover_noop_idempotent_witness :
    applyMonthlyRolloverIfNeeded ([] : List (Stage ℚ))
        ⟨1, 2, some "2025-05"⟩ ⟨2025, 4⟩ = .ok (⟨1, 2, some "2025-05"⟩, false) ∧
      (applyMonthlyRolloverIfNeeded ([] : List (Stage ℚ))
          ⟨1, 2, some "2025-05"⟩ ⟨2025, 4⟩).bind
        (fun p => applyMonthlyRolloverIfNeeded [] p.1 ⟨2025, 4⟩) =
        .ok (⟨1, 2, some "2025-05"⟩, false) :=
  rollover_noop_idempotent.1 [] ⟨1, 2, some "2025-05"⟩ ⟨2025, 4⟩
    "2025-05" rfl (by decide)

/-- C1: with a set watermark strictly earlier than the current month, the
rollover steps one calendar month at a time from `last + 1` through `now`
inclusive, credits each stepped month's resolved deposits (skipping
non-numeric addends without error), and finishes with the watermark at
the current month; in particular three skipped months with a single open
`saving_longterm = 1000` stage add exactly 3000.  (Stated for real 4-digit
calendar years, where the lexical comparisons the code uses agree with
calendar order.) -/
theorem rollover_catchup_months :
    (∀ (stages : List (Stage ℚ)) (st : GoalState ℚ) (dLast now : JsDate),
      (∀ s ∈ stages, (s.«from»).isSome) →
      inYmRange dLast → inYmRange now → monthIdx now < idxHi →
      st.lastRolloverYm = some (getCurrentYearMonth dLast) →
      jsStrLt (getCurrentYearMonth dLast) (getCurrentYearMonth now) = true →
      ∃ ch, applyMonthlyRolloverIfNeeded stages st now =
        .ok ({ currentLongterm := st.currentLongterm +
                 ((List.range ((monthIdx now - monthIdx dLast).toNat)).map
                   (fun k : Nat => longDepositAt stages
                     (getCurrentYearMonth (addMonths dLast ((k : Int) + 1))))).sum
               currentBuffer := st.currentBuffer +
                 ((List.range ((monthIdx now - monthIdx dLast).toNat)).map
                   (fun k : Nat => bufDepositAt stages
                     (getCurrentYearMonth (addMonths dLast ((k : Int) + 1))))).sum
               lastRolloverYm := some (getCurrentYearMonth now) }, ch)) ∧
    applyMonthlyRolloverIfNeeded
      [({ name := some "open", «from» := some "2020-01",
          saving_longterm := some 1000 } : Stage ℤ)]
      ⟨0, 0, some "2025-01"⟩ ⟨2025, 3⟩ =
      .ok (⟨3000, 0, some "2025-04"⟩, true) := by
  constructor
  · intro stages st dLast now hfrom hrl hrn hhi hlast hlt
    exact applyRollover_catchup stages st dLast now hfrom hrl hrn hhi hlast hlt
  · rfl

/-- Witness for C1 at the spec's own concrete instance. -/
theorem rollover_catchup_months_witness :
    ∃ ch, applyMonthlyRolloverIfNeeded
        [({ name := some "open", «from» := some "2020-01",
            saving_longterm := some 1000 } : Stage ℚ)]
        ⟨0, 0, some "2025-01"⟩ ⟨2025, 3⟩ =
      .ok ({ currentLongterm := 0 +
               ((List.range ((monthIdx (⟨2025, 3⟩ : JsDate) -
                   monthIdx (⟨2025, 0⟩ : JsDate)).toNat)).map
                 (fun k : Nat => longDepositAt
                   [({ name := some "open", «from» := some "2020-01",
                       saving_longterm := some 1000 } : Stage ℚ)]
                   (getCurrentYearMonth (addMonths ⟨2025, 0⟩ ((k : Int) + 1))))).sum
             currentBuffer := 0 +
               ((List.range ((monthIdx (⟨2025, 3⟩ : JsDate) -
                   monthIdx (⟨2025, 0⟩ : JsDate)).toNat)).map
                 (fun k : Nat => bufDepositAt
                   [({ name := some "open", «from» := some "2020-01",
                       saving_longterm := some 1000 } : Stage ℚ)]
                   (getCurrentYearMonth (addMonths ⟨2025, 0⟩ ((k : Int) + 1))))).sum
             lastRolloverYm := some (getCurrentYearMonth (⟨2025, 3⟩ : JsDate)) }, ch) :=
  rollover_catchup_months.1
    [{ name := some "open", «from» := some "2020-01", saving_longterm := some 1000 }]
    ⟨0, 0, some "2025-01"⟩ ⟨2025, 0⟩ ⟨2025, 3⟩
    (by decide) (by decide) (by decide) (by decide) rfl (by decide)

/-! ### Claim C7 -/

/-- C7 counterexample: the restore path of `loadPlan` adopts a persisted
watermark that is lexically ahead of the current month (format is
validated, futureness is not).  With stored `last_rollover_ym =
"2099-12"` and the clock at October 2025, the restored state's watermark
is `"2099-12"`, strictly ahead of the rendered current month. -/
theorem restore_adopts_future_watermark :
    (restoreOrInitGoalState (α := ℤ) none
        (some { current_longterm := some 5, current_buffer := some 6,
                last_rollover_ym := some "2099-12" }) ⟨2025, 9⟩).lastRolloverYm =
      some "2099-12" ∧
    getCurrentYearMonth (⟨2025, 9⟩ : JsDate) = "2025-10" ∧
    jsStrLt "2025-10" "2099-12" = true := by
  refine ⟨rfl, rfl, by decide⟩

/-- C7 amended: seeding always pins the watermark to the current month,
and rollover never moves a not-ahead watermark ahead of the current
month; the restore path preserves the bound only under the additional
hypothesis that the persisted watermark, when it is a valid year-month,
is itself not ahead of the current month — without that hypothesis it
adopts the stored future month verbatim. -/
theorem watermark_never_ahead :
    (∀ (plan : Option (Plan ℚ)) (now : JsDate),
      (initGoalState plan now).lastRolloverYm = some (getCurrentYearMonth now)) ∧
    (∀ (plan : Option (Plan ℚ)) (stored : Option (StoredState ℚ)) (now : JsDate),
      (∀ s, stored.bind StoredState.last_rollover_ym = some s →
        isValidYearMonth (some s) = true → jsStrLe s (getCurrentYearMonth now) = true) →
      ∃ z, (restoreOrInitGoalState plan stored now).lastRolloverYm = some z ∧
        jsStrLe z (getCurrentYearMonth now) = true) ∧
    (∀ (stages : List (Stage ℚ)) (st : GoalState ℚ) (dLast now : JsDate),
      (∀ s ∈ stages, (s.«from»).isSome) →
      inYmRange dLast → inYmRange now → monthIdx now < idxHi →
      st.lastRolloverYm = some (getCurrentYearMonth dLast) →
      jsStrLe (getCurrentYearMonth dLast) (getCurrentYearMonth now) = true →
      ∃ st' ch, applyMonthlyRolloverIfNeeded stages st now = .ok (st', ch) ∧
        ∃ z, st'.lastRolloverYm = some z ∧
          jsStrLe z (getCurrentYearMonth now) = true) := by
  refine ⟨?_, ?_, ?_⟩
  · intro plan now
    rfl
  · intro plan stored now hstored
    rw [restoreOrInitGoalState]
    cases hL : safeNumber (stored.bind StoredState.current_longterm) with
    | none =>
      cases hB : safeNumber (stored.bind StoredState.current_buffer) with
      | none => exact ⟨getCurrentYearMonth now, rfl, jsStrLe_refl _⟩
      | some b => exact ⟨getCurrentYearMonth now, rfl, jsStrLe_refl _⟩
    | some l =>
      cases hB : safeNumber (stored.bind StoredState.current_buffer) with
      | none => exact ⟨getCurrentYearMonth now, rfl, jsStrLe_refl _⟩
      | some b =>
        by_cases hv : isValidYearMonth (stored.bind StoredState.last_rollover_ym) = true
        · cases hs : stored.bind StoredState.last_rollover_ym with
          | none => rw [hs] at hv; exact absurd hv (by simp [isValidYearMonth])
          | some s =>
            have hv' : isValidYearMonth (some s) = true := by
              rw [← hs]; exact hv
            refine ⟨s, ?_, hstored s hs hv'⟩
            simp only [hs, hv', if_true]
        · refine ⟨getCurrentYearMonth now, ?_, jsStrLe_refl _⟩
          simp only [Bool.not_eq_true] at hv
          simp only [hv, Bool.false_eq_true, if_false]
  · intro stages st dLast now hfrom hrl hrn hhi hlast hle
    by_cases hg : jsStrLe (getCurrentYearMonth now) (getCurrentYearMonth dLast) = true
    · refine ⟨st, false, ?_, getCurrentYearMonth dLast, hlast, hle⟩
      rw [applyMonthlyRolloverIfNeeded, hlast]
      simp only [hg, if_true]
    · have hlt : jsStrLt (getCurrentYearMonth dLast) (getCurrentYearMonth now) = true := by
        refine (jsStrLt_ym_iff hrl hrn).mpr ?_
        by_contra hc
        have hle2 : monthIdx now ≤ monthIdx dLast := by omega
        rw [(jsStrLe_ym_iff hrn hrl).mpr hle2] at hg
        exact hg rfl
      obtain ⟨ch, happ⟩ :=
        applyRollover_catchup stages st dLast now hfrom hrl hrn hhi hlast hlt
      exact ⟨_, ch, happ, getCurrentYearMonth now, rfl, jsStrLe_refl _⟩

/-- Witness for the amended C7 at a concrete load with no stored state. -/
theorem watermark_never_ahead_witness :
    ∃ z, (restoreOrInitGoalState (α := ℚ) none none ⟨2025, 0⟩).lastRolloverYm =
        some z ∧ jsStrLe z (getCurrentYearMonth (⟨2025, 0⟩ : JsDate)) = true :=
  watermark_never_ahead.2.1 none none ⟨2025, 0⟩
    (by intro s hs _; simp at hs)

/-! ### Projection lemmas -/

theorem firstOfNextMonth_idx (now : JsDate) :
    monthIdx (firstOfNextMonth now) = monthIdx now + 1 := by
  rw [firstOfNextMonth, mkJsDate_idx]
  simp only [monthIdx]
  ring

theorem findStage_mem {stages : List (Stage α)} {ym : String} {s : Stage α}
    (hfrom : ∀ t ∈ stages, (t.«from»).isSome)
    (h : findStageForYearMonth stages ym = .ok (some s)) : s ∈ stages := by
  by_cases hne : stages = []
  · rw [hne] at h
    exact absurd h (by simp [findStageForYearMonth])
  · obtain ⟨st, hfind, hc1, hc2, hc3⟩ := findStage_spec stages ym hne hfrom
    have hst : st = s := by
      rw [hfind] at h
      simpa using h
    subst hst
    by_cases h1 : stages.filter (candPred ym) = []
    · by_cases h2 : stages.filter (priorPred ym) = []
      · exact (hc3 h1 h2).1
      · exact (List.mem_filter.mp (hc2 h1 h2).1).1
    · exact (List.mem_filter.mp (hc1 h1).1).1

theorem projectGoalLoop_reached [LinearOrderedCommRing α] (r : α)
    (stages : List (Stage α)) (tl tb : α) :
    ∀ (fuel : Nat) (b : α × α) (cursor d : JsDate),
      projectGoalLoop r stages tl tb fuel b cursor = .ok ⟨true, some d⟩ →
      ∃ k : Nat, k < fuel ∧ monthIdx d = monthIdx cursor + k ∧
        ∃ p, goalBalancesAfter r stages cursor b (k + 1) = .ok p ∧
          tl ≤ p.1 ∧ tb ≤ p.2 := by
  intro fuel
  induction fuel with
  | zero =>
    intro b cursor d h
    exact absurd h (by simp [projectGoalLoop])
  | succ f ih =>
    intro b cursor d h
    rw [projectGoalLoop] at h
    cases hstep : goalMonthStep r stages (getCurrentYearMonth cursor) b with
    | error e =>
      rw [hstep] at h
      exact absurd h (by simp [Bind.bind, Except.bind])
    | ok b' =>
      rw [hstep, except_bind_ok] at h
      by_cases hth : tl ≤ b'.1 ∧ tb ≤ b'.2
      · rw [if_pos hth] at h
        simp only [Except.ok.injEq, ProjResult.mk.injEq, Option.some.injEq] at h
        refine ⟨0, by omega, ?_, b', ?_, hth.1, hth.2⟩
        · rw [← h.2]
          simp
        · rw [goalBalancesAfter, hstep, except_bind_ok]
          rfl
      · rw [if_neg hth] at h
        obtain ⟨k, hk, hidx, p, hbal, h1, h2⟩ := ih b' (addMonths cursor 1) d h
        refine ⟨k + 1, by omega, ?_, p, ?_, h1, h2⟩
        · rw [hidx, addMonths_idx]
          push_cast
          ring
        · rw [goalBalancesAfter, hstep, except_bind_ok]
          exact hbal

theorem goalBalances_no_deposit [LinearOrderedCommRing α] (r : α)
    {stages : List (Stage α)}
    (hfrom : ∀ s ∈ stages, (s.«from»).isSome)
    (hnoL : ∀ s ∈ stages, s.saving_longterm = none)
    (hnoB : ∀ s ∈ stages, s.saving_buffer = none) :
    ∀ (n : Nat) (cursor : JsDate) (lt0 b0 : α),
      goalBalancesAfter r stages cursor (lt0, b0) n =
        .ok (lt0 * (1 + r) ^ n, b0) := by
  intro n
  induction n with
  | zero =>
    intro cursor lt0 b0
    simp [goalBalancesAfter]
  | succ n ih =>
    intro cursor lt0 b0
    obtain ⟨stg, hstg⟩ := findStage_ok stages (getCurrentYearMonth cursor) hfrom
    have hL : stg.bind Stage.saving_longterm = none := by
      cases hc : stg with
      | none => rfl
      | some s =>
        rw [hc] at hstg
        simp only [Option.some_bind]
        exact hnoL s (findStage_mem hfrom hstg)
    have hB : stg.bind Stage.saving_buffer = none := by
      cases hc : stg with
      | none => rfl
      | some s =>
        rw [hc] at hstg
        simp only [Option.some_bind]
        exact hnoB s (findStage_mem hfrom hstg)
    rw [goalBalancesAfter, goalMonthStep, hstg, except_bind_ok]
    simp only [safeNumber, hL, hB, except_bind_ok]
    rw [ih (addMonths cursor 1) (lt0 * (1 + r)) b0]
    congr 1
    rw [Prod.mk.injEq]
    constructor
    · ring
    · rfl

theorem bufferBalance_linear [LinearOrderedCommRing α] {s : Stage α} {c : α}
    (hc : s.saving_buffer = some c) :
    ∀ (n : Nat) (cursor : JsDate) (buf0 : α),
      bufferBalanceAfter [s] cursor buf0 n = .ok (buf0 + n * c) := by
  intro n
  induction n with
  | zero =>
    intro cursor buf0
    simp [bufferBalanceAfter]
  | succ n ih =>
    intro cursor buf0
    rw [bufferBalanceAfter, bufferMonthStep, findStage_single, except_bind_ok]
    simp only [safeNumber, Option.some_bind, hc, except_bind_ok]
    rw [ih (addMonths cursor 1) (buf0 + c)]
    congr 1
    push_cast
    ring

/-! ### Claim C3 -/

/-- C3: the long-term projection simulates at most 600 months past the
current one; each simulated month first adds the resolved deposits and
then multiplies only the long-term balance by
`1 + ((1.08)^(1/12) - 1)`, growth applied exactly once after the deposit;
with no numeric deposits and a long-term seed of 100000 the balance after
12 simulated months is exactly `100000 * 1.08` over the reals. -/
theorem goal_projection_monthly_compounding :
    (∀ (stages : List (Stage ℝ)) (goal : Option (Goal ℝ)) (st : GoalState ℝ)
        (now d : JsDate),
      projectGoalDate ((1.08 : ℝ) ^ ((1 : ℝ) / 12) - 1) stages goal st now =
        .ok ⟨true, some d⟩ →
      monthIdx d ≤ monthIdx now + 600) ∧
    (∀ (s : Stage ℝ) (lt0 b0 dl db : ℝ) (ym : String),
      s.saving_longterm = some dl → s.saving_buffer = some db →
      goalMonthStep ((1.08 : ℝ) ^ ((1 : ℝ) / 12) - 1) [s] ym (lt0, b0) =
        .ok ((lt0 + dl) * (1 + ((1.08 : ℝ) ^ ((1 : ℝ) / 12) - 1)), b0 + db)) ∧
    (∀ (stages : List (Stage ℝ)) (cursor : JsDate) (b0 : ℝ),
      (∀ s ∈ stages, (s.«from»).isSome) →
      (∀ s ∈ stages, s.saving_longterm = none) →
      (∀ s ∈ stages, s.saving_buffer = none) →
      goalBalancesAfter ((1.08 : ℝ) ^ ((1 : ℝ) / 12) - 1) stages cursor
        (100000, b0) 12 = .ok (100000 * 1.08, b0)) := by
  refine ⟨?_, ?_, ?_⟩
  · intro stages goal st now d h
    rw [projectGoalDate] at h
    split at h
    · rename_i tl tb heq1 heq2
      split_ifs at h with h1 h2 h3
      · exact absurd h (by simp)
      · exact absurd h (by simp)
      · simp only [Except.ok.injEq, ProjResult.mk.injEq, Option.some.injEq] at h
        rw [← h.2]
        omega
      · obtain ⟨k, hk, hidx, _⟩ :=
          projectGoalLoop_reached _ stages tl tb 600
            (st.currentLongterm, st.currentBuffer) (firstOfNextMonth now) d h
        rw [firstOfNextMonth_idx] at hidx
        omega
    · exact absurd h (by simp)
    · exact absurd h (by simp)
  · intro s lt0 b0 dl db ym hdl hdb
    rw [goalMonthStep, findStage_single, except_bind_ok]
    simp only [safeNumber, Option.some_bind, hdl, hdb]
  · intro stages cursor b0 hfrom hnoL hnoB
    rw [goalBalances_no_deposit _ hfrom hnoL hnoB 12 cursor 100000 b0]
    congr 2
    have h1 : (1 : ℝ) + ((1.08 : ℝ) ^ ((1 : ℝ) / 12) - 1) =
        (1.08 : ℝ) ^ ((1 : ℝ) / 12) := by ring
    rw [h1, ← Real.rpow_natCast ((1.08 : ℝ) ^ ((1 : ℝ) / 12)) 12,
      ← Real.rpow_mul (by norm_num)]
    norm_num

/-- Witness for C3 with the empty stage list (vacuous deposits). -/
theorem goal_projection_monthly_compounding_witness :
    goalBalancesAfter ((1.08 : ℝ) ^ ((1 : ℝ) / 12) - 1) ([] : List (Stage ℝ))
      ⟨2025, 0⟩ (100000, 0) 12 = .ok (100000 * 1.08, 0) :=
  goal_projection_monthly_compounding.2.2 [] ⟨2025, 0⟩ 0
    (by simp) (by simp) (by simp)

/-! ### Claim C4 -/

/-- C4 counterexample: with `target_buffer = 0` and a non-negative seed
buffer, `projectBufferDate` returns the configuration not-reached result
instead of reporting the threshold already met: its guard rejects
`target_buffer <= 0`, not only negative or non-numeric targets. -/
theorem bufferProjector_rejects_zero_target :
    projectBufferDate ([] : List (Stage ℤ))
        (some { target_buffer := some (some 0) }) ⟨0, 0, none⟩ ⟨2025, 0⟩ =
      .ok { reached := false, date := none } ∧
    (0 : ℤ) ≤ 0 := by
  exact ⟨rfl, le_refl 0⟩

/-- C4 amended: `projectBufferDate` reports immediate not-reached exactly
when `target_buffer` is missing, non-numeric, or non-positive (zero
included, unlike the long-term projector's `< 0` guard); for a positive
target already covered by the seed buffer it reports reached at the
current moment. -/
theorem bufferProjector_config_guard :
    (∀ (stages : List (Stage ℚ)) (goal : Option (Goal ℚ)) (st : GoalState ℚ)
        (now : JsDate),
      numField (goal.bind Goal.target_buffer) = none →
      projectBufferDate stages goal st now = .ok { reached := false, date := none }) ∧
    (∀ (stages : List (Stage ℚ)) (goal : Option (Goal ℚ)) (st : GoalState ℚ)
        (now : JsDate) (tb : ℚ),
      numField (goal.bind Goal.target_buffer) = some tb → tb ≤ 0 →
      projectBufferDate stages goal st now = .ok { reached := false, date := none }) ∧
    (∀ (stages : List (Stage ℚ)) (goal : Option (Goal ℚ)) (st : GoalState ℚ)
        (now : JsDate) (tb : ℚ),
      numField (goal.bind Goal.target_buffer) = some tb → 0 < tb →
      tb ≤ st.currentBuffer →
      projectBufferDate stages goal st now = .ok { reached := true, date := some now }) := by
  refine ⟨?_, ?_, ?_⟩
  · intro stages goal st now h
    rw [projectBufferDate, h]
  · intro stages goal st now tb h htb
    rw [projectBufferDate, h]
    simp only [if_pos htb]
  · intro stages goal st now tb h htb hseed
    rw [projectBufferDate, h]
    simp only [if_neg (not_le.mpr htb), if_pos hseed]

/-- Witness for the amended C4 at a concrete covered positive target. -/
theorem bufferProjector_config_guard_witness :
    projectBufferDate ([] : List (Stage ℚ))
        (some { target_buffer := some (some 3000) }) ⟨0, 5000, none⟩ ⟨2025, 0⟩ =
      .ok { reached := true, date := some ⟨2025, 0⟩ } :=
  bufferProjector_config_guard.2.2 [] (some { target_buffer := some (some 3000) })
    ⟨0, 5000, none⟩ ⟨2025, 0⟩ 3000 rfl (by norm_num) (by norm_num)

/-! ### Claim C5 -/

/-- C5: the long-term projection reports reached only when, after the
month's deposit-then-growth, the long-term and buffer thresholds hold
simultaneously (or both already held at the start); the buffer projector
ignores `target_longterm` entirely and applies no growth — its balance is
purely additive — and with seed 1000, deposit 500, target 3000 it reports
reached after exactly 4 simulated months. -/
theorem projection_dual_threshold :
    (∀ (stages : List (Stage ℚ)) (goal : Option (Goal ℚ)) (st : GoalState ℚ)
        (now d : JsDate) (r : ℚ),
      projectGoalDate r stages goal st now = .ok ⟨true, some d⟩ →
      ∃ tl tb, numField (goal.bind Goal.target_longterm) = some tl ∧
        numField (goal.bind Goal.target_buffer) = some tb ∧
        ((d = now ∧ tl ≤ st.currentLongterm ∧ tb ≤ st.currentBuffer) ∨
         (∃ k p, goalBalancesAfter r stages (firstOfNextMonth now)
             (st.currentLongterm, st.currentBuffer) (k + 1) = .ok p ∧
           tl ≤ p.1 ∧ tb ≤ p.2 ∧ monthIdx d = monthIdx now + 1 + k))) ∧
    (∀ (stages : List (Stage ℚ)) (g : Goal ℚ) (x : Option (Option ℚ))
        (st : GoalState ℚ) (now : JsDate),
      projectBufferDate stages (some { g with target_longterm := x }) st now =
        projectBufferDate stages (some g) st now) ∧
    (∀ (s : Stage ℚ) (c : ℚ) (n : Nat) (cursor : JsDate) (buf0 : ℚ),
      s.saving_buffer = some c →
      bufferBalanceAfter [s] cursor buf0 n = .ok (buf0 + n * c)) ∧
    projectBufferDate
      [({ name := some "B", «from» := some "2020-01",
          saving_buffer := some 500 } : Stage ℤ)]
      (some { target_buffer := some (some 3000) }) ⟨0, 1000, none⟩ ⟨2025, 0⟩ =
      .ok { reached := true, date := some ⟨2025, 4⟩ } := by
  refine ⟨?_, ?_, ?_, ?_⟩
  · intro stages goal st now d r h
    rw [projectGoalDate] at h
    split at h
    · rename_i tl tb heq1 heq2
      refine ⟨tl, tb, heq1, heq2, ?_⟩
      split_ifs at h with h1 h2 h3
      · exact absurd h (by simp)
      · exact absurd h (by simp)
      · simp only [Except.ok.injEq, ProjResult.mk.injEq, Option.some.injEq] at h
        exact Or.inl ⟨h.2.symm, h3.1, h3.2⟩
      · obtain ⟨k, hk, hidx, p, hbal, hp1, hp2⟩ :=
          projectGoalLoop_reached r stages tl tb 600
            (st.currentLongterm, st.currentBuffer) (firstOfNextMonth now) d h
        rw [firstOfNextMonth_idx] at hidx
        exact Or.inr ⟨k, p, hbal, hp1, hp2, by omega⟩
    · exact absurd h (by simp)
    · exact absurd h (by simp)
  · intro stages g x st now
    rfl
  · intro s c n cursor buf0 hc
    exact bufferBalance_linear hc n cursor buf0
  · rfl

/-- Witness for C5's universally quantified parts: the additive buffer
trajectory at seed 1000, deposit 500, four months. -/
theorem projection_dual_threshold_witness :
    bufferBalanceAfter
      [({ name := some "B", «from» := some "2020-01",
          saving_buffer := some 500 } : Stage ℚ)] ⟨2025, 1⟩ 1000 4 =
      .ok (1000 + (4 : Nat) * 500) :=
  projection_dual_threshold.2.2.1
    { name := some "B", «from» := some "2020-01", saving_buffer := some 500 }
    500 4 ⟨2025, 1⟩ 1000 rfl

/-! ### Claim C8 -/

theorem stageIssues_length (i : Nat) (st : Stage α) :
    (stageIssues i st).length =
      (if badName st then 1 else 0) + (if badFrom st then 1 else 0) +
        (if badTo st then 1 else 0) := by
  rcases hn : st.name with _ | s <;>
    simp only [stageIssues, badName, badFrom, badTo, hn, List.length_append] <;>
    split_ifs <;> simp_all

theorem enumFrom_issue_count :
    ∀ (l : List (Stage α)) (i : Nat),
      (((List.enumFrom i l).map (fun ia => stageIssues ia.1 ia.2)).flatten).length =
        l.countP badName + l.countP badFrom + l.countP badTo := by
  intro l
  induction l with
  | nil => intro i; simp
  | cons st t ih =>
    intro i
    simp only [List.enumFrom, List.map_cons, List.flatten_cons,
      List.length_append, List.countP_cons, stageIssues_length, ih (i + 1)]
    split_ifs <;> omega

/-- C8: a missing, non-list, or empty `stages` yields exactly the single
fail-closed issue with no per-stage checks; otherwise the validator
accumulates every per-stage issue (its issue count is the sum of the
per-stage malformedness counts plus the goal-key issues), so two
malformed stages yield at least two issues. -/
theorem validator_fail_closed_accumulates :
    (∀ (p : Option (Plan ℚ)),
      (p = none ∨ ∃ pl, p = some pl ∧ (pl.stages = none ∨ pl.stages = some [])) →
      validatePlan p = [stagesArrayMsg]) ∧
    (∀ (pl : Plan ℚ) (l : List (Stage ℚ)), pl.stages = some l → l ≠ [] →
      (validatePlan (some pl)).length =
        l.countP badName + l.countP badFrom + l.countP badTo +
          (goalIssues pl.goal).length) ∧
    (∀ (pl : Plan ℚ) (l : List (Stage ℚ)), pl.stages = some l →
      2 ≤ l.countP badName + l.countP badFrom + l.countP badTo →
      2 ≤ (validatePlan (some pl)).length) := by
  have hb : ∀ (pl : Plan ℚ) (l : List (Stage ℚ)), pl.stages = some l → l ≠ [] →
      (validatePlan (some pl)).length =
        l.countP badName + l.countP badFrom + l.countP badTo +
          (goalIssues pl.goal).length := by
    intro pl l hst hne
    cases l with
    | nil => exact absurd rfl hne
    | cons a t =>
      rw [validatePlan, hst]
      rw [List.length_append, List.enum]
      rw [enumFrom_issue_count (a :: t) 0]
  refine ⟨?_, hb, ?_⟩
  · intro p hp
    rcases hp with rfl | ⟨pl, rfl, hst | hst⟩
    · rfl
    · rw [validatePlan, hst]
    · rw [validatePlan, hst]
  · intro pl l hst hcount
    have hne : l ≠ [] := by
      intro he
      subst he
      simp at hcount
    rw [hb pl l hst hne]
    omega

/-- Witness for C8: a plan with two malformed stages (bad `from`, blank
name) produces exactly four issues (two per stage here), at least two. -/
theorem validator_fail_closed_accumulates_witness :
    (validatePlan (some ({ stages := some [{ «from» := some "2025-1" },
        { name := some " " }] } : Plan ℚ))).length =
      [({ «from» := some "2025-1" } : Stage ℚ),
        { name := some " " }].countP badName +
      [({ «from» := some "2025-1" } : Stage ℚ),
        { name := some " " }].countP badFrom +
      [({ «from» := some "2025-1" } : Stage ℚ),
        { name := some " " }].countP badTo +
      (goalIssues (none : Option (Goal ℚ))).length :=
  validator_fail_closed_accumulates.2.1
    { stages := some [{ «from» := some "2025-1" }, { name := some " " }] }
    [{ «from» := some "2025-1" }, { name := some " " }]
    rfl (by decide)

/-! ### Claim C9 -/

/-- C9 counterexample: the write handler coerces with JS `Number`, so the
non-numeric body value `true` is stored as 1, not 0. -/
theorem putState_true_stored_as_one :
    (putStateHandler
        { current_longterm := .jsBool true, current_buffer := .null,
          last_rollover_ym := none } "2025-10-11T00:00:00.000Z").1.current_longterm =
      1 ∧ (1 : ℚ) ≠ 0 := by
  exact ⟨rfl, one_ne_zero⟩

/-- C9 amended: for the represented scalar balance inputs the write
operation applies JS `Number` coercion with falsy/NaN fallback to 0 —
`null` and `false` are stored as 0, `true` as 1, numbers verbatim — so
non-numeric inputs are not uniformly coerced to 0; the watermark is kept
verbatim exactly when the body value is a string and coerced to null for
every non-string value; a server-side `updated_at` is stamped; and the
response echoes exactly the stored record. -/
theorem putState_coercion_contract :
    ∀ (body : PutBody) (ts : String),
      (putStateHandler body ts).2 = (putStateHandler body ts).1 ∧
      (putStateHandler body ts).1.updated_at = ts ∧
      (putStateHandler body ts).1.current_longterm = numberOr0 body.current_longterm ∧
      (putStateHandler body ts).1.current_buffer = numberOr0 body.current_buffer ∧
      (∀ q, body.current_longterm = .num q →
        (putStateHandler body ts).1.current_longterm = q) ∧
      (body.current_longterm = .null →
        (putStateHandler body ts).1.current_longterm = 0) ∧
      (∀ b, body.current_longterm = .jsBool b →
        (putStateHandler body ts).1.current_longterm = (if b then 1 else 0)) ∧
      (∀ s, body.last_rollover_ym = some s →
        (putStateHandler body ts).1.last_rollover_ym = some s) ∧
      (body.last_rollover_ym = none →
        (putStateHandler body ts).1.last_rollover_ym = none) := by
  intro body ts
  refine ⟨rfl, rfl, rfl, rfl, ?_, ?_, ?_, ?_, ?_⟩
  · intro q hq
    simp [putStateHandler, numberOr0, jsToNumber, hq]
  · intro hq
    simp [putStateHandler, numberOr0, jsToNumber, hq]
  · intro b hb
    simp [putStateHandler, numberOr0, jsToNumber, hb]
  · intro s hs
    simp [putStateHandler, hs]
  · intro hns
    simp [putStateHandler, hns]

/-- Witness for the amended C9 at a concrete body. -/
theorem putState_coercion_contract_witness :
    (putStateHandler
        { current_longterm := .num 250, current_buffer := .null,
          last_rollover_ym := some "2025-03" } "ts").1.last_rollover_ym =
      some "2025-03" :=
  (putState_coercion_contract
      { current_longterm := .num 250, current_buffer := .null,
        last_rollover_ym := some "2025-03" } "ts").2.2.2.2.2.2.2.1 "2025-03" rfl

end LukeFinance
